import Mathlib

/-!
# RedisSrc: the kqueue readiness backend and the background I/O service

A shallow embedding of `src/redis-3.0/src/ae_kqueue.c` and
`src/redis-3.0/src/bio.c`, with the properties of their specification
stated and proved over the embedding.

* Part 1: the stack-size computation of `bioInit`.
* Part 2: the kqueue backend (`aeApiResize`, `aeApiAddEvent`,
  `aeApiDelEvent`, `aeApiPoll`); the kernel side of `kevent(2)` is an
  explicit state with an explicit failure oracle.
* Part 3: the background job subsystem as a transition system whose steps
  are the individual statements of `bioCreateBackgroundJob`,
  `bioProcessBackgroundJobs` and `bioPendingJobsOfType`, interleaved
  arbitrarily.
-/

set_option autoImplicit false

namespace RedisSrc

/-! ## Part 1: definitions for the stack size computed by bioInit -/

/-- The floor of the thread stack size, bio.c line 90: `(1024 * 1024 * 4)`. -/
def REDIS_THREAD_STACK_SIZE : Nat := 1024 * 1024 * 4

/-- The loop `while (stacksize < REDIS_THREAD_STACK_SIZE) stacksize *= 2;`
(bio.c lines 117-118) on a `size_t` of `w` bits. Each unit of fuel pays for
one evaluation of the loop condition; `none` means the fuel ran out. -/
def stackSizeLoop (w : Nat) : Nat → Nat → Option Nat
  | 0, _ => none
  | fuel + 1, stacksize =>
    if stacksize < REDIS_THREAD_STACK_SIZE then
      stackSizeLoop w fuel ((stacksize * 2) % 2 ^ w)
    else
      some stacksize

/-- The value handed to `pthread_attr_setstacksize` by `bioInit` (bio.c
lines 114-119) when `pthread_attr_getstacksize` reported `stacksize`. -/
def bioInitStackSize (w fuel stacksize : Nat) : Option Nat :=
  let stacksize := if stacksize = 0 then 1 else stacksize
  stackSizeLoop w fuel stacksize

/-! ## Part 2: definitions for the kqueue backend -/

/-- Modelled from the spec: the readiness-mask bit `AE_READABLE` of ae.h,
which is not among the sources ("Readiness-mask is a bitset over
{Readable, Writable}"). -/
def AE_READABLE : Int := 1

/-- Modelled from the spec: the readiness-mask bit `AE_WRITABLE` of ae.h,
which is not among the sources ("Readiness-mask is a bitset over
{Readable, Writable}"). -/
def AE_WRITABLE : Int := 2

/-- The read filter of `<sys/event.h>`. -/
def EVFILT_READ : Int := -1

/-- The write filter of `<sys/event.h>`. -/
def EVFILT_WRITE : Int := -2

/-- The action flags of a change record, `<sys/event.h>`. -/
inductive KFlag where
  | EV_ADD
  | EV_DELETE
deriving DecidableEq, Repr

/-- The fields of `struct kevent` that ae_kqueue.c reads or sets. The field
`ident` holds the value of the `uintptr_t` identifier: for a read or write
filter, the descriptor the watch was registered for by
`EV_SET(&ke, fd, ...)`. -/
structure kevent where
  ident : Int
  filter : Int
deriving DecidableEq, Repr

/-- The width of `int`, the type of the field `fd` of a fired entry. -/
def INT_BITS : Nat := 32

/-- The conversion of an identifier to `int` made by the assignment
`eventLoop->fired[j].fd = e->ident` (ae_kqueue.c line 133): the value is
reduced modulo `2 ^ 32` into the range of a 32-bit two's complement `int`. -/
def narrowToInt (x : Int) : Int :=
  let m := x % 2 ^ INT_BITS
  if m < 2 ^ (INT_BITS - 1) then m else m - 2 ^ INT_BITS

/-- One entry of `eventLoop->fired` (`aeFiredEvent`). -/
structure aeFiredEvent where
  fd : Int
  mask : Int
deriving DecidableEq, Repr

/-- The backend state `aeApiState`: the kqueue descriptor and the event
buffer, `none` being the null pointer. -/
structure aeApiState where
  kqfd : Int
  events : Option (List kevent)
deriving DecidableEq, Repr

/-- The fields of `aeEventLoop` used by the backend. -/
structure aeEventLoop where
  setsize : Nat
  fired : List aeFiredEvent
  apidata : aeApiState
deriving DecidableEq, Repr

/-- The kernel side of the kqueue named by `kqfd`: the registered
(descriptor, filter) watches, and the record of every change request the
process has submitted so far (most recent last). -/
structure Kqueue where
  interest : List kevent
  requests : List (KFlag × kevent)
deriving DecidableEq, Repr

/-- The kernel adds a watch to an interest set; a watch that is already
registered is not duplicated. -/
def registerWatch (interest : List kevent) (ke : kevent) : List kevent :=
  if ke ∈ interest then interest else interest ++ [ke]

/-- The call `kevent(kqfd, &ke, 1, NULL, 0, NULL)` with one change record.
`EV_ADD` fails (result -1, nothing registered) when the oracle `addFails`
says so and otherwise registers the watch; `EV_DELETE` removes the watch
when it is registered and otherwise reports "not found" (result -1) and
changes nothing. -/
def keventChange (addFails : Kqueue → kevent → Bool) (kq : Kqueue) (flag : KFlag)
    (ke : kevent) : Int × Kqueue :=
  match flag with
  | .EV_ADD =>
    if addFails kq ke then
      (-1, { kq with requests := kq.requests ++ [(flag, ke)] })
    else
      (0, { interest := registerWatch kq.interest ke,
            requests := kq.requests ++ [(flag, ke)] })
  | .EV_DELETE =>
    if ke ∈ kq.interest then
      (0, { interest := kq.interest.filter (fun w => w ≠ ke),
            requests := kq.requests ++ [(flag, ke)] })
    else
      (-1, { kq with requests := kq.requests ++ [(flag, ke)] })

/-- The function `aeApiAddEvent` (ae_kqueue.c lines 75-88), returning the
result and the kernel state it leaves behind. -/
def aeApiAddEvent (addFails : Kqueue → kevent → Bool) (kq : Kqueue) (fd : Int) (mask : Int) :
    Int × Kqueue :=
  let r1 : Int × Kqueue :=
    if Int.land mask AE_READABLE ≠ 0 then
      keventChange addFails kq .EV_ADD { ident := fd, filter := EVFILT_READ }
    else (0, kq)
  if r1.1 = -1 then (-1, r1.2)
  else
    let r2 : Int × Kqueue :=
      if Int.land mask AE_WRITABLE ≠ 0 then
        keventChange addFails r1.2 .EV_ADD { ident := fd, filter := EVFILT_WRITE }
      else (0, r1.2)
    if r2.1 = -1 then (-1, r2.2) else (0, r2.2)

/-- The function `aeApiDelEvent` (ae_kqueue.c lines 90-102): the results of
both `kevent` calls are discarded and nothing is returned. -/
def aeApiDelEvent (addFails : Kqueue → kevent → Bool) (kq : Kqueue) (fd : Int) (mask : Int) :
    Kqueue :=
  let kq1 : Kqueue :=
    if Int.land mask AE_READABLE ≠ 0 then
      (keventChange addFails kq .EV_DELETE { ident := fd, filter := EVFILT_READ }).2
    else kq
  if Int.land mask AE_WRITABLE ≠ 0 then
    (keventChange addFails kq1 .EV_DELETE { ident := fd, filter := EVFILT_WRITE }).2
  else kq1

/-- The watches a call `aeApiDelEvent(eventLoop, fd, mask)` names. -/
def namedBy (fd : Int) (mask : Int) (w : kevent) : Bool :=
  decide (w.ident = fd) &&
    ((decide (Int.land mask AE_READABLE ≠ 0) && decide (w.filter = EVFILT_READ)) ||
     (decide (Int.land mask AE_WRITABLE ≠ 0) && decide (w.filter = EVFILT_WRITE)))

/-- The `struct timeval` argument of `aeApiPoll`. -/
structure timeval where
  tv_sec : Int
  tv_usec : Int
deriving DecidableEq, Repr

/-- The `struct timespec` handed to `kevent`. -/
structure timespec where
  tv_sec : Int
  tv_nsec : Int
deriving DecidableEq, Repr

/-- The body of the loop of `aeApiPoll` for index `j` (ae_kqueue.c lines
127-134); an access outside either array has no defined result. -/
def aeApiPollBody (events : List kevent) (fired : List aeFiredEvent) (j : Nat) :
    Option (List aeFiredEvent) :=
  match events.get? j with
  | none => none
  | some e =>
    let mask : Int := 0
    let mask := if e.filter = EVFILT_READ then Int.lor mask AE_READABLE else mask
    let mask := if e.filter = EVFILT_WRITE then Int.lor mask AE_WRITABLE else mask
    if j < fired.length then
      some (fired.set j { fd := narrowToInt e.ident, mask := mask })
    else none

/-- The loop `for (j = 0; j < numevents; j++)` of `aeApiPoll`, started at
index `j` with `todo = numevents - j` iterations left. -/
def aeApiPollLoop (events : List kevent) : Nat → Nat → List aeFiredEvent →
    Option (List aeFiredEvent)
  | 0, _, fired => some fired
  | todo + 1, j, fired =>
    match aeApiPollBody events fired j with
    | none => none
    | some fired1 => aeApiPollLoop events todo (j + 1) fired1

/-- The function `aeApiPoll` (ae_kqueue.c lines 104-138). The blocking call
`kevent(state->kqfd, NULL, 0, state->events, eventLoop->setsize, timeout)`
is the parameter `sys`: given the event buffer, its capacity argument and
the timeout it was passed, it yields its result and the contents it left in
the event buffer. -/
def aeApiPoll (sys : Option (List kevent) → Nat → Option timespec → Int × Option (List kevent))
    (eventLoop : aeEventLoop) (tvp : Option timeval) : Option (Int × aeEventLoop) :=
  let state := eventLoop.apidata
  let numevents : Int := 0
  let r : Int × Option (List kevent) :=
    match tvp with
    | some tv =>
      sys state.events eventLoop.setsize
        (some { tv_sec := tv.tv_sec, tv_nsec := tv.tv_usec * 1000 })
    | none => sys state.events eventLoop.setsize none
  let retval := r.1
  let state := { state with events := r.2 }
  if retval > 0 then
    let numevents := retval
    match r.2 with
    | none => none
    | some events =>
      match aeApiPollLoop events numevents.toNat 0 eventLoop.fired with
      | none => none
      | some fired => some (numevents, { eventLoop with fired := fired, apidata := state })
  else
    some (numevents, { eventLoop with apidata := state })

/-- The fired entry the loop body of aeApiPoll writes for a raw event: the
descriptor is the identifier converted to `int`, the mask is Readable for
the read filter, Writable for the write filter and empty for any other
filter. -/
def translateEvent (e : kevent) : aeFiredEvent :=
  { fd := narrowToInt e.ident,
    mask := if e.filter = EVFILT_READ then AE_READABLE
            else if e.filter = EVFILT_WRITE then AE_WRITABLE else 0 }

/-- A kernel answer used in the examples: two events are reported, a read
event on descriptor 7 and a write event on descriptor 9. -/
def sysTwoEvents : Option (List kevent) → Nat → Option timespec → Int × Option (List kevent) :=
  fun _ _ _ => (2, some [{ ident := 7, filter := EVFILT_READ },
                         { ident := 9, filter := EVFILT_WRITE },
                         { ident := 0, filter := 0 }])

/-- A kernel answer used in the examples: one read event is reported whose
identifier, 4294967303, is `2 ^ 32 + 7`. -/
def sysLargeIdent : Option (List kevent) → Nat → Option timespec → Int × Option (List kevent) :=
  fun _ _ _ => (1, some [{ ident := 4294967303, filter := EVFILT_READ },
                         { ident := 0, filter := 0 },
                         { ident := 0, filter := 0 }])

/-- A kernel answer used in the examples: the call fails with -1 and
leaves the event buffer as it was. -/
def sysFails : Option (List kevent) → Nat → Option timespec → Int × Option (List kevent) :=
  fun buf _ _ => (-1, buf)

/-- A kernel answer used in the examples: the call times out, reporting 0
events, and leaves the event buffer as it was. -/
def sysTimesOut : Option (List kevent) → Nat → Option timespec → Int × Option (List kevent) :=
  fun buf _ _ => (0, buf)

/-- An event loop of capacity 3 used in the examples, with a marker in
every fired entry. -/
def loop3 : aeEventLoop :=
  { setsize := 3,
    fired := [{ fd := 100, mask := 3 }, { fd := 101, mask := 3 }, { fd := 102, mask := 3 }],
    apidata := { kqfd := 4, events := some [{ ident := 0, filter := 0 },
                                             { ident := 0, filter := 0 },
                                             { ident := 0, filter := 0 }] } }

/-- The watch aeApiAddEvent registers for the Readable bit of `fd`. -/
def readWatch (fd : Int) : kevent := { ident := fd, filter := EVFILT_READ }

/-- The watch aeApiAddEvent registers for the Writable bit of `fd`. -/
def writeWatch (fd : Int) : kevent := { ident := fd, filter := EVFILT_WRITE }

/-- The Readable bit is requested and its registration call fails. -/
def readableFails (addFails : Kqueue → kevent → Bool) (kq : Kqueue) (fd mask : Int) : Prop :=
  Int.land mask AE_READABLE ≠ 0 ∧ addFails kq (readWatch fd) = true

instance (addFails : Kqueue → kevent → Bool) (kq : Kqueue) (fd mask : Int) :
    Decidable (readableFails addFails kq fd mask) := by
  unfold readableFails; infer_instance

/-- The kernel state once the Readable bit has been dealt with. -/
def afterReadable (addFails : Kqueue → kevent → Bool) (kq : Kqueue) (fd mask : Int) : Kqueue :=
  if Int.land mask AE_READABLE ≠ 0 then
    (keventChange addFails kq .EV_ADD (readWatch fd)).2
  else kq

/-- The Readable step did not fail, the Writable bit is requested and its
registration call fails. -/
def writableFails (addFails : Kqueue → kevent → Bool) (kq : Kqueue) (fd mask : Int) : Prop :=
  ¬ readableFails addFails kq fd mask ∧ Int.land mask AE_WRITABLE ≠ 0 ∧
    addFails (afterReadable addFails kq fd mask) (writeWatch fd) = true

/-- A kernel used in the examples in which every registration of a write
filter fails. -/
def writeAddFails : Kqueue → kevent → Bool :=
  fun _ ke => decide (ke.filter = EVFILT_WRITE)

/-- A kernel used in the examples in which every registration of a read
filter fails. -/
def readAddFails : Kqueue → kevent → Bool :=
  fun _ ke => decide (ke.filter = EVFILT_READ)

/-- A kernel used in the examples in which no registration fails. -/
def noAddFails : Kqueue → kevent → Bool := fun _ _ => false

/-- A kqueue used in the examples, watching descriptor 7 for reading and
writing and descriptor 9 for reading. -/
def kqueue3 : Kqueue :=
  { interest := [{ ident := 7, filter := EVFILT_READ }, { ident := 7, filter := EVFILT_WRITE },
                 { ident := 9, filter := EVFILT_READ }],
    requests := [] }

/-! ## Part 3: definitions for the background job subsystem -/

/-- Modelled from the spec: the job category "close file descriptor",
`REDIS_BIO_CLOSE_FILE` of bio.h, which is not among the sources. -/
def REDIS_BIO_CLOSE_FILE : Nat := 0

/-- Modelled from the spec: the job category "flush durability log",
`REDIS_BIO_AOF_FSYNC` of bio.h, which is not among the sources. -/
def REDIS_BIO_AOF_FSYNC : Nat := 1

/-- Modelled from the spec: the number of job categories,
`REDIS_BIO_NUM_OPS` of bio.h, which is not among the sources (the closed
set of categories has the two members above). -/
def REDIS_BIO_NUM_OPS : Nat := 2

/-- The record `struct bio_job` (bio.c lines 77-84). -/
structure bio_job where
  time : Int
  arg1 : Int
  arg2 : Int
  arg3 : Int
deriving DecidableEq, Repr

/-- A node of a job list. The field `id` is the identity of the node (in C
its address); it stamps the allocation, so that no two nodes ever share
it. The field `value` is the job the node carries. -/
structure listNode where
  id : Nat
  value : bio_job
deriving DecidableEq, Repr

/-- Modelled from the spec: `listCreate` of adlist.c, which is not among
the sources ("an empty FIFO queue"). -/
def listCreate : List listNode := []

/-- Modelled from the spec: `listLength` of adlist.c, which is not among the
sources ("queue length"). -/
def listLength (list : List listNode) : Nat := list.length

/-- Modelled from the spec: `listFirst` of adlist.c, which is not among the
sources ("the first element"). -/
def listFirst (list : List listNode) : Option listNode := list.head?

/-- Modelled from the spec: `listAddNodeTail` of adlist.c, which is not
among the sources ("appends it to the category's queue"); the new node gets
the identity `id`. -/
def listAddNodeTail (list : List listNode) (id : Nat) (value : bio_job) : List listNode :=
  list ++ [{ id := id, value := value }]

/-- Modelled from the spec: `listDelNode` of adlist.c, which is not among
the sources: the node with the identity of `node` is unlinked from the
list, wherever it stands. -/
def listDelNode (list : List listNode) (node : listNode) : List listNode :=
  list.eraseP (fun n => decide (n.id = node.id))

/-- The width of `unsigned long long`, the type of `bio_pending`. -/
def ULLONG_BITS : Nat := 64

/-- A bound on the nodes one list can hold: every node is an allocation of
its own in an address space of at most `2 ^ 64` bytes. An allocation past
it does not return (the allocator aborts the process). -/
def NODE_LIMIT : Nat := 2 ^ 64 - 1

/-- The threads that take the mutex of a category: its worker and the
threads that call into the subsystem. -/
inductive Thread where
  | worker
  | client (i : Nat)
deriving DecidableEq, Repr

/-- The operations a worker performs on behalf of a job. -/
inductive Operation where
  | close (fd : Int)
  | aof_fsync (fd : Int)
deriving DecidableEq, Repr

/-- The control points of `bioProcessBackgroundJobs` (bio.c lines
162-224), with the local variables `ln` and `job` that are live there. -/
inductive WorkerPc where
  /-- Before the `pthread_mutex_lock` of line 173. -/
  | start
  /-- At the test of line 189, the mutex held. -/
  | loopHead
  /-- Suspended in `pthread_cond_wait` (line 191), the mutex released. -/
  | condWait
  /-- Woken inside `pthread_cond_wait`, the mutex not yet taken back. -/
  | condWoken
  /-- After lines 195-196, the mutex held. -/
  | peeked (ln : listNode) (job : bio_job)
  /-- After the unlock of line 199, before the operation of lines 202-213. -/
  | execute (ln : listNode) (job : bio_job)
  /-- After the operation, before `zfree(job)` (line 214). -/
  | processed (ln : listNode) (job : bio_job)
  /-- After `zfree(job)`, before the `pthread_mutex_lock` of line 220. -/
  | freed (ln : listNode)
  /-- After the lock of line 220, before `listDelNode` (line 221). -/
  | commitLocked (ln : listNode)
  /-- After `listDelNode`, before `bio_pending[type]--` (line 222). -/
  | deleted
deriving DecidableEq, Repr

/-- The control points of a client thread: idle, inside
`bioCreateBackgroundJob` (bio.c lines 140-160), or inside
`bioPendingJobsOfType` (lines 228-235). -/
inductive ClientPc where
  /-- Not inside a call. -/
  | idle
  /-- The job is allocated and filled (lines 142-148); before the lock. -/
  | cjReady (type : Nat) (job : bio_job)
  /-- After the lock of line 152. -/
  | cjLocked (type : Nat) (job : bio_job)
  /-- After `listAddNodeTail` (line 154). -/
  | cjAdded (type : Nat)
  /-- After `bio_pending[type]++` (line 155). -/
  | cjCounted (type : Nat)
  /-- After `pthread_cond_signal` (line 157), before the unlock. -/
  | cjSignaled (type : Nat)
  /-- Entered `bioPendingJobsOfType`, before the lock of line 231. -/
  | pjEntry (type : Nat)
  /-- After the lock of line 231. -/
  | pjLocked (type : Nat)
  /-- After `val = bio_pending[type]` (line 232), before the unlock. -/
  | pjRead (type : Nat) (val : Nat)
  /-- The call has returned `val` (line 234). -/
  | pjReturned (type : Nat) (val : Nat)
deriving DecidableEq, Repr

/-- The slot `type` of the static arrays of bio.c (lines 63-73), the
control point of the worker bound to it, and history variables: the number
of nodes allocated so far, the nodes appended, the nodes whose operation
has been performed, the nodes unlinked, and the operations performed. -/
structure Category where
  bio_mutex : Option Thread
  bio_jobs : List listNode
  bio_pending : Nat
  bio_thread : WorkerPc
  allocated : Nat
  submitted : List listNode
  executed : List listNode
  committed : List listNode
  performed : List Operation
deriving DecidableEq, Repr

/-- The whole subsystem: the array slots by category and the client
threads by thread number. -/
structure Bio where
  cat : Nat → Category
  clients : Nat → ClientPc

/-- Replace the entry `i` of a table. -/
def setAt {α : Type} (f : Nat → α) (i : Nat) (v : α) : Nat → α :=
  fun j => if j = i then v else f j

/-- The state `bioInit` leaves (bio.c lines 102-110 and 125-136): every
mutex free, every queue empty, every counter zero, every worker at the
start of its thread function, every client idle. -/
def bioInit : Bio :=
  { cat := fun _ =>
      { bio_mutex := none, bio_jobs := listCreate, bio_pending := 0, bio_thread := .start,
        allocated := 0, submitted := [], executed := [], committed := [], performed := [] },
    clients := fun _ => .idle }

/-- One step of the worker of category `type` on its slot (bio.c lines
173-223). `none` means the step is not enabled: the thread is blocked on
the mutex or the condition variable, or the process has been aborted by
`redisPanic`. -/
def workerStep (type : Nat) (c : Category) : Option Category :=
  match c.bio_thread with
  | .start =>
    if c.bio_mutex = none then
      some { c with bio_mutex := some .worker, bio_thread := .loopHead }
    else none
  | .loopHead =>
    if listLength c.bio_jobs = 0 then
      some { c with bio_mutex := none, bio_thread := .condWait }
    else
      match listFirst c.bio_jobs with
      | none => none
      | some ln => some { c with bio_thread := .peeked ln ln.value }
  | .condWait => none
  | .condWoken =>
    if c.bio_mutex = none then
      some { c with bio_mutex := some .worker, bio_thread := .loopHead }
    else none
  | .peeked ln job =>
    some { c with bio_mutex := none, bio_thread := .execute ln job }
  | .execute ln job =>
    if type = REDIS_BIO_CLOSE_FILE then
      some { c with performed := c.performed ++ [.close job.arg1],
                    executed := c.executed ++ [ln],
                    bio_thread := .processed ln job }
    else if type = REDIS_BIO_AOF_FSYNC then
      some { c with performed := c.performed ++ [.aof_fsync job.arg1],
                    executed := c.executed ++ [ln],
                    bio_thread := .processed ln job }
    else none
  | .processed ln _ =>
    some { c with bio_thread := .freed ln }
  | .freed ln =>
    if c.bio_mutex = none then
      some { c with bio_mutex := some .worker, bio_thread := .commitLocked ln }
    else none
  | .commitLocked ln =>
    some { c with bio_jobs := listDelNode c.bio_jobs ln,
                  committed := c.committed ++ [ln],
                  bio_thread := .deleted }
  | .deleted =>
    some { c with bio_pending := (c.bio_pending + 2 ^ ULLONG_BITS - 1) % 2 ^ ULLONG_BITS,
                  bio_thread := .loopHead }

/-- One step of client `i` inside the call it is in (bio.c lines 152-159
and 231-234). `none` means the step is not enabled: the client is not in a
call, it is blocked on the mutex, or the allocation of the list node did
not return. -/
def clientStep (i : Nat) (s : Bio) : Option Bio :=
  match s.clients i with
  | .idle => none
  | .cjReady type job =>
    let c := s.cat type
    if c.bio_mutex = none then
      some { cat := setAt s.cat type { c with bio_mutex := some (.client i) },
             clients := setAt s.clients i (.cjLocked type job) }
    else none
  | .cjLocked type job =>
    let c := s.cat type
    if listLength c.bio_jobs < NODE_LIMIT then
      some { cat := setAt s.cat type
               { c with bio_jobs := listAddNodeTail c.bio_jobs c.allocated job,
                        allocated := c.allocated + 1,
                        submitted := c.submitted ++ [{ id := c.allocated, value := job }] },
             clients := setAt s.clients i (.cjAdded type) }
    else none
  | .cjAdded type =>
    let c := s.cat type
    some { cat := setAt s.cat type
             { c with bio_pending := (c.bio_pending + 1) % 2 ^ ULLONG_BITS },
           clients := setAt s.clients i (.cjCounted type) }
  | .cjCounted type =>
    let c := s.cat type
    some { cat := setAt s.cat type
             { c with bio_thread := if c.bio_thread = .condWait then .condWoken
                                    else c.bio_thread },
           clients := setAt s.clients i (.cjSignaled type) }
  | .cjSignaled type =>
    let c := s.cat type
    some { cat := setAt s.cat type { c with bio_mutex := none },
           clients := setAt s.clients i .idle }
  | .pjEntry type =>
    let c := s.cat type
    if c.bio_mutex = none then
      some { cat := setAt s.cat type { c with bio_mutex := some (.client i) },
             clients := setAt s.clients i (.pjLocked type) }
    else none
  | .pjLocked type =>
    some { s with clients := setAt s.clients i (.pjRead type (s.cat type).bio_pending) }
  | .pjRead type val =>
    let c := s.cat type
    some { cat := setAt s.cat type { c with bio_mutex := none },
           clients := setAt s.clients i (.pjReturned type val) }
  | .pjReturned _ _ => none

/-- A client may enter a call when it is not inside one. -/
def ClientPc.canCall : ClientPc → Bool
  | .idle => true
  | .pjReturned _ _ => true
  | _ => false

/-- The moves of the system. -/
inductive Action where
  /-- The worker of category `type` takes its next step. -/
  | worker (type : Nat)
  /-- The worker of category `type` wakes from `pthread_cond_wait` without
  having been signalled. -/
  | spurious (type : Nat)
  /-- Client `i` calls `bioCreateBackgroundJob(type, arg1, arg2, arg3)`
  when `time(NULL)` is `now`, and runs it up to the lock of line 152. -/
  | create (i type : Nat) (arg1 arg2 arg3 now : Int)
  /-- Client `i` calls `bioPendingJobsOfType(type)`. -/
  | pending (i type : Nat)
  /-- Client `i` takes the next step of the call it is in. -/
  | client (i : Nat)
deriving DecidableEq, Repr

/-- One move of the system; `none` when the move is not enabled. A call
with a category outside the arrays is not defined. -/
def step (s : Bio) : Action → Option Bio
  | .worker type =>
    if type < REDIS_BIO_NUM_OPS then
      match workerStep type (s.cat type) with
      | none => none
      | some c => some { s with cat := setAt s.cat type c }
    else none
  | .spurious type =>
    if type < REDIS_BIO_NUM_OPS ∧ (s.cat type).bio_thread = .condWait then
      some { s with cat := setAt s.cat type { s.cat type with bio_thread := .condWoken } }
    else none
  | .create i type arg1 arg2 arg3 now =>
    if type < REDIS_BIO_NUM_OPS ∧ (s.clients i).canCall = true then
      let job : bio_job := { time := now, arg1 := arg1, arg2 := arg2, arg3 := arg3 }
      some { s with clients := setAt s.clients i (.cjReady type job) }
    else none
  | .pending i type =>
    if type < REDIS_BIO_NUM_OPS ∧ (s.clients i).canCall = true then
      some { s with clients := setAt s.clients i (.pjEntry type) }
    else none
  | .client i => clientStep i s

/-- The state after a sequence of moves, `none` if one of them is not
enabled when its turn comes. -/
def run (s : Bio) : List Action → Option Bio
  | [] => some s
  | a :: rest =>
    match step s a with
    | none => none
    | some s1 => run s1 rest

/-- The control points at which the worker holds the mutex of its
category. -/
def WorkerPc.holds : WorkerPc → Bool
  | .loopHead => true
  | .peeked _ _ => true
  | .commitLocked _ => true
  | .deleted => true
  | _ => false

/-- The control points at which a client holds the mutex of category
`type`. -/
def ClientPc.holds (type : Nat) : ClientPc → Bool
  | .cjLocked t _ => decide (t = type)
  | .cjAdded t => decide (t = type)
  | .cjCounted t => decide (t = type)
  | .cjSignaled t => decide (t = type)
  | .pjLocked t => decide (t = type)
  | .pjRead t _ => decide (t = type)
  | _ => false

/-- The node the worker has in its local variable `ln`. -/
def WorkerPc.node : WorkerPc → Option listNode
  | .peeked ln _ => some ln
  | .execute ln _ => some ln
  | .processed ln _ => some ln
  | .freed ln => some ln
  | .commitLocked ln => some ln
  | _ => none

/-- The job the worker has in its local variable `job`. -/
def WorkerPc.job : WorkerPc → Option bio_job
  | .peeked _ job => some job
  | .execute _ job => some job
  | .processed _ job => some job
  | _ => none

/-- The node whose operation the worker has performed but which it has
not yet unlinked. -/
def WorkerPc.inflight : WorkerPc → List listNode
  | .processed ln _ => [ln]
  | .freed ln => [ln]
  | .commitLocked ln => [ln]
  | _ => []

/-- The worker has unlinked a node and not yet decremented the counter. -/
def WorkerPc.owes : WorkerPc → Nat
  | .deleted => 1
  | _ => 0

/-- The holder of the mutex of category `type` has appended a node and not
yet incremented the counter. -/
def lagOf (s : Bio) (type : Nat) : Nat :=
  match (s.cat type).bio_mutex with
  | some (.client i) => if s.clients i = .cjAdded type then 1 else 0
  | _ => 0

/-- The invariant of category `type`. -/
structure Inv (s : Bio) (type : Nat) : Prop where
  lockW : (s.cat type).bio_mutex = some .worker ↔ (s.cat type).bio_thread.holds = true
  lockC : ∀ i, (s.cat type).bio_mutex = some (.client i) ↔ (s.clients i).holds type = true
  subm : (s.cat type).submitted = (s.cat type).committed ++ (s.cat type).bio_jobs
  head : ∀ ln, (s.cat type).bio_thread.node = some ln →
    (s.cat type).bio_jobs.head? = some ln
  exec : (s.cat type).executed = (s.cat type).committed ++ (s.cat type).bio_thread.inflight
  count : (s.cat type).bio_jobs.length + (s.cat type).bio_thread.owes =
    (s.cat type).bio_pending + lagOf s type
  bound : (s.cat type).bio_jobs.length ≤ NODE_LIMIT
  pend : (s.cat type).bio_pending < 2 ^ ULLONG_BITS
  ids : (s.cat type).submitted.map (fun n => n.id) = List.range (s.cat type).allocated
  job : ∀ j, (s.cat type).bio_thread.job = some j →
    ∃ ln, (s.cat type).bio_thread.node = some ln ∧ j = ln.value

/-- The operation the worker of category `type` performs for the job of a
node (bio.c lines 202-209). -/
def operationOf (type : Nat) (n : listNode) : Operation :=
  if type = REDIS_BIO_CLOSE_FILE then .close n.value.arg1 else .aof_fsync n.value.arg1

/-- Two further facts about category `type`: the operations performed are
those of the executed nodes, in order, and a value read by
`bioPendingJobsOfType` is the counter for as long as the reader holds the
mutex. -/
structure Inv2 (s : Bio) (type : Nat) : Prop where
  perf : (s.cat type).performed = (s.cat type).executed.map (operationOf type)
  read : ∀ i val, s.clients i = .pjRead type val → val = (s.cat type).bio_pending

/-- A whole call `bioPendingJobsOfType(type)` by client `i`, run without
another thread moving in between: the value returned and the state left,
or `none` if the client cannot call or a step is not enabled. -/
def bioPendingJobsOfType (s : Bio) (i type : Nat) : Option (Nat × Bio) :=
  match run s [.pending i type, .client i, .client i, .client i] with
  | none => none
  | some s1 =>
    match s1.clients i with
    | .pjReturned _ val => some (val, s1)
    | _ => none

/-- A whole call `bioCreateBackgroundJob(type, arg1, arg2, arg3)` by client
`i`, run without another thread moving in between: the state left, or
`none` if the client cannot call or a step is not enabled. -/
def bioCreateBackgroundJob (s : Bio) (i type : Nat) (arg1 arg2 arg3 now : Int) : Option Bio :=
  run s [.create i type arg1 arg2 arg3 now, .client i, .client i, .client i, .client i,
         .client i]

/-- The node whose job the worker is executing: from the unlock of line
199 to the lock of line 220 (the operation, then `zfree(job)`). -/
def WorkerPc.executing : WorkerPc → Option listNode
  | .execute ln _ => some ln
  | .processed ln _ => some ln
  | .freed ln => some ln
  | _ => none

/-- The moves of the system when every call of a client is taken as one
step: the steps of a worker, and whole calls of the two client functions. -/
inductive Move where
  /-- The worker of category `type` takes its next step. -/
  | worker (type : Nat)
  /-- The worker of category `type` wakes without having been signalled. -/
  | spurious (type : Nat)
  /-- Client `i` runs a whole `bioCreateBackgroundJob(type, arg1, arg2, arg3)`. -/
  | submit (i type : Nat) (arg1 arg2 arg3 now : Int)
  /-- Client `i` runs a whole `bioPendingJobsOfType(type)`. -/
  | pendingCount (i type : Nat)
deriving DecidableEq, Repr

/-- One move with whole calls as steps; `none` when it is not enabled. -/
def moveStep (s : Bio) : Move → Option Bio
  | .worker type => step s (.worker type)
  | .spurious type => step s (.spurious type)
  | .submit i type arg1 arg2 arg3 now => bioCreateBackgroundJob s i type arg1 arg2 arg3 now
  | .pendingCount i type => (bioPendingJobsOfType s i type).map Prod.snd

/-- The state after a sequence of moves with whole calls as steps. -/
def runMoves (s : Bio) : List Move → Option Bio
  | [] => some s
  | m :: rest =>
    match moveStep s m with
    | none => none
    | some s1 => runMoves s1 rest

/-- The statement-level steps a move consists of. -/
def Move.actions : Move → List Action
  | .worker type => [.worker type]
  | .spurious type => [.spurious type]
  | .submit i type arg1 arg2 arg3 now =>
    [.create i type arg1 arg2 arg3 now, .client i, .client i, .client i, .client i, .client i]
  | .pendingCount i type => [.pending i type, .client i, .client i, .client i]

/-- The number of whole calls `bioCreateBackgroundJob(type, ...)` in a
sequence of moves. -/
def countSubmits (type : Nat) : List Move → Nat
  | [] => 0
  | .submit _ ty _ _ _ _ :: rest =>
    (if ty = type then 1 else 0) + countSubmits type rest
  | _ :: rest => countSubmits type rest

/-- No client is inside a call: the states between the moves when whole
calls are taken as steps. -/
def quiescent (s : Bio) : Prop := ∀ i, (s.clients i).canCall = true

/-- An interleaving used in the examples, all in category 0: the worker
starts and goes to sleep on the empty queue; client 0 submits a job with
argument 5; the worker wakes, peeks at it and starts executing; client 0
submits a second job with argument 7 while the first is still being
executed; then the worker performs the first operation and frees the job
record. -/
def exampleTrace : List Action :=
  [.worker 0, .worker 0,
   .create 0 0 5 0 0 100, .client 0, .client 0, .client 0, .client 0, .client 0,
   .worker 0, .worker 0, .worker 0,
   .create 0 0 7 0 0 101, .client 0, .client 0, .client 0, .client 0, .client 0,
   .worker 0, .worker 0]

/-- The state the example interleaving ends in. -/
def exampleState : Bio := (run bioInit exampleTrace).getD bioInit

/-- The example interleaving continued until the worker has executed and
committed both jobs and gone back to sleep on the empty queue. -/
def exampleDrainedTrace : List Action :=
  exampleTrace ++ [.worker 0, .worker 0, .worker 0, .worker 0, .worker 0, .worker 0,
                   .worker 0, .worker 0, .worker 0, .worker 0, .worker 0]

/-- The state the continued example interleaving ends in. -/
def exampleDrainedState : Bio := (run bioInit exampleDrainedTrace).getD bioInit

/-- The example interleaving cut off inside the second submission, right
after its `listAddNodeTail` and before its increment of the counter; the
worker is executing the first job meanwhile. -/
def exampleWindowTrace : List Action :=
  [.worker 0, .worker 0,
   .create 0 0 5 0 0 100, .client 0, .client 0, .client 0, .client 0, .client 0,
   .worker 0, .worker 0, .worker 0,
   .create 0 0 7 0 0 101, .client 0, .client 0]

/-- The state the cut-off example interleaving ends in. -/
def exampleWindowState : Bio := (run bioInit exampleWindowTrace).getD bioInit

/-- The example interleaving continued by one worker step: the worker has
taken the mutex again and is about to unlink its node. -/
def exampleCommitTrace : List Action := exampleTrace ++ [.worker 0]

/-- The state of the example in which the worker is about to unlink. -/
def exampleCommitState : Bio := (run bioInit exampleCommitTrace).getD bioInit

/-- The example with whole calls as steps: the worker goes to sleep, a job
with argument 5 is submitted, the worker wakes, peeks, unlocks and is about
to execute it, and a job with argument 7 is submitted meanwhile. -/
def exampleMoves : List Move :=
  [.worker 0, .worker 0, .submit 0 0 5 0 0 100, .worker 0, .worker 0, .worker 0,
   .submit 0 0 7 0 0 101]

/-- The state the example with whole calls as steps ends in. -/
def exampleMovesState : Bio := (runMoves bioInit exampleMoves).getD bioInit

/-- The first node of the examples: the job with argument 5. -/
def exampleNode0 : listNode :=
  { id := 0, value := { time := 100, arg1 := 5, arg2 := 0, arg3 := 0 } }

/-- The second node of the examples: the job with argument 7. -/
def exampleNode1 : listNode :=
  { id := 1, value := { time := 101, arg1 := 7, arg2 := 0, arg3 := 0 } }

/-! ## Part 1: the stack size computed by bioInit -/

theorem stackSizeLoop_spec (w : Nat) (hw : 23 ≤ w) :
    ∀ (n s : Nat), 1 ≤ s → s < 2 ^ w → REDIS_THREAD_STACK_SIZE ≤ s * 2 ^ n →
      ∃ k, k ≤ n ∧ stackSizeLoop w (n + 1) s = some (s * 2 ^ k) ∧
        REDIS_THREAD_STACK_SIZE ≤ s * 2 ^ k ∧
        (∀ j, j < k → s * 2 ^ j < REDIS_THREAD_STACK_SIZE) ∧
        (∀ j, j ≤ k → s * 2 ^ j < 2 ^ w) := by
  have hR : REDIS_THREAD_STACK_SIZE = 2 ^ 22 := by norm_num [REDIS_THREAD_STACK_SIZE]
  have hpow : 2 ^ 23 ≤ 2 ^ w := Nat.pow_le_pow_right (by norm_num) hw
  intro n
  induction n with
  | zero =>
    intro s _ hs hn
    refine ⟨0, le_refl 0, ?_, ?_, ?_, ?_⟩
    · have : ¬ s < REDIS_THREAD_STACK_SIZE := by simpa using hn
      simp [stackSizeLoop, this]
    · simpa using hn
    · intro j hj; omega
    · intro j hj
      have : j = 0 := by omega
      subst this; simpa using hs
  | succ n ih =>
    intro s h1 hs hn
    by_cases hlt : s < REDIS_THREAD_STACK_SIZE
    · have h2 : s * 2 < 2 ^ w := by rw [hR] at hlt; omega
      have hmod : (s * 2) % 2 ^ w = s * 2 := Nat.mod_eq_of_lt h2
      have hn2 : REDIS_THREAD_STACK_SIZE ≤ (s * 2) * 2 ^ n := by
        have : s * 2 ^ (n + 1) = (s * 2) * 2 ^ n := by ring
        omega
      obtain ⟨k, hk, hrun, hge, hmin, hno⟩ := ih (s * 2) (by omega) h2 hn2
      refine ⟨k + 1, by omega, ?_, ?_, ?_, ?_⟩
      · have e : s * 2 ^ (k + 1) = (s * 2) * 2 ^ k := by ring
        rw [e, ← hrun]
        conv_lhs => unfold stackSizeLoop
        simp [hlt, hmod]
      · have e : s * 2 ^ (k + 1) = (s * 2) * 2 ^ k := by ring
        omega
      · intro j hj
        cases j with
        | zero => simpa using hlt
        | succ i =>
          have e : s * 2 ^ (i + 1) = (s * 2) * 2 ^ i := by ring
          have := hmin i (by omega)
          omega
      · intro j hj
        cases j with
        | zero => simpa using hs
        | succ i =>
          have e : s * 2 ^ (i + 1) = (s * 2) * 2 ^ i := by ring
          have := hno i (by omega)
          omega
    · refine ⟨0, Nat.zero_le _, ?_, ?_, ?_, ?_⟩
      · conv_lhs => unfold stackSizeLoop
        simp [hlt]
      · simpa using Nat.le_of_not_lt hlt
      · intro j hj; omega
      · intro j hj
        have : j = 0 := by omega
        subst this; simpa using hs

/-- C10: for every default stack size `s` of a `w`-bit `size_t` (`w` at
least 32), the stack-size loop of `bioInit` terminates within 23 tests of
its condition and yields `max s 1 * 2 ^ k` for the least `k` that reaches
`REDIS_THREAD_STACK_SIZE = 4194304`; no doubling overflows the word, and a
size that is already large enough is passed on unchanged. -/
theorem bioInit_stack_size_floor (w fuel s : Nat) (hw : 32 ≤ w) (hs : s < 2 ^ w)
    (hfuel : 23 ≤ fuel) :
    REDIS_THREAD_STACK_SIZE = 4194304 ∧
    ∃ k, bioInitStackSize w fuel s = some (max s 1 * 2 ^ k) ∧
      REDIS_THREAD_STACK_SIZE ≤ max s 1 * 2 ^ k ∧
      (∀ j, j < k → max s 1 * 2 ^ j < REDIS_THREAD_STACK_SIZE) ∧
      (∀ j, j ≤ k → max s 1 * 2 ^ j < 2 ^ w) ∧
      (REDIS_THREAD_STACK_SIZE ≤ s → k = 0 ∧ bioInitStackSize w fuel s = some s) := by
  refine ⟨by norm_num [REDIS_THREAD_STACK_SIZE], ?_⟩
  obtain ⟨n, rfl⟩ : ∃ n, fuel = n + 1 := ⟨fuel - 1, by omega⟩
  have hpow : 2 ^ 32 ≤ 2 ^ w := Nat.pow_le_pow_right (by norm_num) hw
  have hinit : (if s = 0 then 1 else s) = max s 1 := by
    by_cases h0 : s = 0
    · simp [h0]
    · have : 1 ≤ s := Nat.one_le_iff_ne_zero.mpr h0
      simp [h0, Nat.max_eq_left this]
  have h1 : 1 ≤ max s 1 := le_max_right _ _
  have hlt : max s 1 < 2 ^ w := by
    rcases Nat.le_total s 1 with h | h
    · rw [Nat.max_eq_right h]; omega
    · rw [Nat.max_eq_left h]; exact hs
  have hn : REDIS_THREAD_STACK_SIZE ≤ max s 1 * 2 ^ n := by
    have h22 : 2 ^ 22 ≤ 2 ^ n := Nat.pow_le_pow_right (by norm_num) (by omega)
    have hR : REDIS_THREAD_STACK_SIZE = 2 ^ 22 := by norm_num [REDIS_THREAD_STACK_SIZE]
    calc REDIS_THREAD_STACK_SIZE = 1 * 2 ^ 22 := by rw [hR]; ring
      _ ≤ max s 1 * 2 ^ n := Nat.mul_le_mul h1 h22
  obtain ⟨k, _, hrun, hge, hmin, hno⟩ :=
    stackSizeLoop_spec w (by omega) n (max s 1) h1 hlt hn
  refine ⟨k, ?_, hge, hmin, hno, ?_⟩
  · simp only [bioInitStackSize, hinit]; exact hrun
  · intro hbig
    have hk : k = 0 := by
      by_contra hne
      have := hmin 0 (Nat.pos_of_ne_zero hne)
      have hms : s ≤ max s 1 := le_max_left _ _
      simp at this
      omega
    refine ⟨hk, ?_⟩
    subst hk
    have hs1 : 1 ≤ s := by
      have hR : REDIS_THREAD_STACK_SIZE = 2 ^ 22 := by norm_num [REDIS_THREAD_STACK_SIZE]
      omega
    simp only [bioInitStackSize, hinit]
    rw [hrun, Nat.max_eq_left hs1]; simp

theorem bioInit_stack_size_floor_witness :
    (32 ≤ 64 ∧ 524288 < 2 ^ 64 ∧ 23 ≤ 23) ∧
    bioInitStackSize 64 23 524288 = some 4194304 ∧
    (REDIS_THREAD_STACK_SIZE = 4194304 ∧
     ∃ k, bioInitStackSize 64 23 524288 = some (max 524288 1 * 2 ^ k) ∧
      REDIS_THREAD_STACK_SIZE ≤ max 524288 1 * 2 ^ k ∧
      (∀ j, j < k → max 524288 1 * 2 ^ j < REDIS_THREAD_STACK_SIZE) ∧
      (∀ j, j ≤ k → max 524288 1 * 2 ^ j < 2 ^ 64) ∧
      (REDIS_THREAD_STACK_SIZE ≤ 524288 →
        k = 0 ∧ bioInitStackSize 64 23 524288 = some 524288)) :=
  ⟨⟨by decide, by norm_num, by decide⟩, by decide,
   bioInit_stack_size_floor 64 23 524288 (by decide) (by norm_num) (by decide)⟩

/-! ## Part 2: the kqueue backend -/

theorem aeApiPollBody_eq (events : List kevent) (fired : List aeFiredEvent) (j : Nat)
    (e : kevent) (he : events[j]? = some e) (hj : j < fired.length) :
    aeApiPollBody events fired j = some (fired.set j (translateEvent e)) := by
  have he2 : events.get? j = some e := by simpa using he
  unfold aeApiPollBody
  rw [he2]
  simp only [hj, if_true, translateEvent]
  by_cases h1 : e.filter = EVFILT_READ
  · have h2 : ¬ e.filter = EVFILT_WRITE := by rw [h1]; decide
    simp only [h1, h2, if_true, if_false]
    rfl
  · by_cases h2 : e.filter = EVFILT_WRITE
    · simp only [h1, h2, if_true, if_false]
      rfl
    · simp only [h1, h2, if_false]

theorem aeApiPollLoop_spec (events : List kevent) :
    ∀ (todo j : Nat) (fired : List aeFiredEvent),
      j + todo ≤ events.length → j + todo ≤ fired.length →
      ∃ out, aeApiPollLoop events todo j fired = some out ∧
        out.length = fired.length ∧
        (∀ i, j ≤ i → i < j + todo → out[i]? = (events[i]?).map translateEvent) ∧
        (∀ i, i < j ∨ j + todo ≤ i → out[i]? = fired[i]?) := by
  intro todo
  induction todo with
  | zero =>
    intro j fired _ _
    refine ⟨fired, rfl, rfl, ?_, ?_⟩
    · intro i h1 h2; omega
    · intro i _; rfl
  | succ todo ih =>
    intro j fired he hf
    have hje : j < events.length := by omega
    have hjf : j < fired.length := by omega
    have hget : events[j]? = some (events[j]) := List.getElem?_eq_getElem hje
    have hbody := aeApiPollBody_eq events fired j _ hget hjf
    obtain ⟨out, hrun, hlen, hin, hout⟩ :=
      ih (j + 1) (fired.set j (translateEvent events[j])) (by omega)
        (by simp only [List.length_set]; omega)
    refine ⟨out, ?_, ?_, ?_, ?_⟩
    · simp only [aeApiPollLoop, hbody]; exact hrun
    · simpa using hlen
    · intro i h1 h2
      by_cases hij : i = j
      · subst hij
        rw [hout i (Or.inl (by omega)), hget]
        simp [List.getElem?_set, hjf]
      · exact hin i (by omega) (by omega)
    · intro i hi
      have hne : j ≠ i := by omega
      rw [hout i (by omega)]
      simp [List.getElem?_set, hne]

theorem narrowToInt_of_descriptor (x : Int) (h0 : 0 ≤ x) (h1 : x < 2 ^ (INT_BITS - 1)) :
    narrowToInt x = x := by
  have hb : (2 : Int) ^ (INT_BITS - 1) = 2147483648 := by norm_num [INT_BITS]
  have hb2 : (2 : Int) ^ INT_BITS = 4294967296 := by norm_num [INT_BITS]
  rw [hb] at h1
  have hm : x % 2 ^ INT_BITS = x := by
    rw [hb2]; omega
  simp only [narrowToInt, hm, hb]
  rw [if_pos h1]

theorem narrowToInt_range (x : Int) :
    -(2 ^ (INT_BITS - 1)) ≤ narrowToInt x ∧ narrowToInt x < 2 ^ (INT_BITS - 1) := by
  have hb : (2 : Int) ^ (INT_BITS - 1) = 2147483648 := by norm_num [INT_BITS]
  have hb2 : (2 : Int) ^ INT_BITS = 4294967296 := by norm_num [INT_BITS]
  simp only [narrowToInt, hb, hb2]
  split_ifs <;> omega

/-- C4 (refuted as stated): the fired entry does not always carry the
identifier of the raw event: for a read event with identifier
`4294967303 = 2 ^ 32 + 7` aeApiPoll returns 1 and writes descriptor 7. -/
theorem aeApiPoll_narrows_ident :
    (aeApiPoll sysLargeIdent loop3 none).map (fun r => (r.1, r.2.fired[0]?)) =
      some (1, some { fd := 7, mask := 1 }) ∧
    (sysLargeIdent loop3.apidata.events loop3.setsize none).2.map
      (fun evs => evs[0]?.map (fun e => e.ident)) = some (some 4294967303) ∧
    (7 : Int) ≠ 4294967303 := by
  decide

/-- C4 (amended): for every result `n` of the kevent call and every event
buffer it leaves, aeApiPoll returns `n` when `n > 0` (the buffer and the
fired array holding at least `n` records) and 0 otherwise; for `j < n` the
fired entry `j` carries the identifier of raw event `j` converted to `int`,
which is the identifier itself whenever that lies in `0 .. 2 ^ 31 - 1` as
every descriptor does, and the mask Readable, Writable or empty according
to its filter; entries from index `n` on are unchanged, and for `n ≤ 0` the
fired array is not written at all. -/
theorem aeApiPoll_translates
    (sys : Option (List kevent) → Nat → Option timespec → Int × Option (List kevent))
    (eventLoop : aeEventLoop) (tvp : Option timeval) (n : Int) (events : List kevent)
    (hsys : ∀ t, sys eventLoop.apidata.events eventLoop.setsize t = (n, some events))
    (hev : n ≤ events.length) (hfired : n ≤ eventLoop.fired.length) :
    ∃ out, aeApiPoll sys eventLoop tvp = some ((if n > 0 then n else 0), out) ∧
      out.setsize = eventLoop.setsize ∧
      out.fired.length = eventLoop.fired.length ∧
      (∀ j : Nat, (j : Int) < n → ∃ e f, events[j]? = some e ∧ out.fired[j]? = some f ∧
          f.fd = narrowToInt e.ident ∧
          (0 ≤ e.ident → e.ident < 2 ^ (INT_BITS - 1) → f.fd = e.ident) ∧
          (e.filter = EVFILT_READ → f.mask = AE_READABLE) ∧
          (e.filter = EVFILT_WRITE → f.mask = AE_WRITABLE) ∧
          (e.filter ≠ EVFILT_READ → e.filter ≠ EVFILT_WRITE → f.mask = 0)) ∧
      (∀ j : Nat, n ≤ (j : Int) → out.fired[j]? = eventLoop.fired[j]?) ∧
      (n ≤ 0 → out.fired = eventLoop.fired) := by
  have hr : (match tvp with
      | some tv => sys eventLoop.apidata.events eventLoop.setsize
          (some { tv_sec := tv.tv_sec, tv_nsec := tv.tv_usec * 1000 })
      | none => sys eventLoop.apidata.events eventLoop.setsize none) = (n, some events) := by
    cases tvp <;> simp [hsys]
  by_cases hn : n > 0
  · have h1 : 0 + n.toNat ≤ events.length := by omega
    have h2 : 0 + n.toNat ≤ eventLoop.fired.length := by omega
    obtain ⟨fired, hrun, hlen, hin, hout⟩ :=
      aeApiPollLoop_spec events n.toNat 0 eventLoop.fired h1 h2
    refine ⟨{ eventLoop with fired := fired,
                             apidata := { eventLoop.apidata with events := some events } },
      ?_, rfl, hlen, ?_, ?_, ?_⟩
    · simp only [aeApiPoll, hr, hn, if_true, hrun]
    · intro j hj
      have hjn : j < n.toNat := by omega
      have hje : j < events.length := by omega
      refine ⟨events[j], translateEvent events[j], List.getElem?_eq_getElem hje, ?_, rfl,
        ?_, ?_, ?_, ?_⟩
      · have := hin j (Nat.zero_le _) (by omega)
        simpa [List.getElem?_eq_getElem hje] using this
      · intro h0 h1
        exact narrowToInt_of_descriptor _ h0 h1
      · intro h; simp [translateEvent, h]
      · intro h
        have h1 : ¬ EVFILT_WRITE = EVFILT_READ := by decide
        simp [translateEvent, h, h1]
      · intro h1 h2; simp [translateEvent, h1, h2]
    · intro j hj
      exact hout j (Or.inr (by omega))
    · intro h; omega
  · refine ⟨{ eventLoop with apidata := { eventLoop.apidata with events := some events } },
      ?_, rfl, rfl, ?_, ?_, ?_⟩
    · simp only [aeApiPoll, hr, hn, if_false]
    · intro j hj; omega
    · intro j _; rfl
    · intro _; rfl

theorem aeApiPoll_translates_witness :
    (aeApiPoll sysTwoEvents loop3 none).map (fun r => (r.1, r.2.fired)) =
      some (2, [{ fd := 7, mask := 1 }, { fd := 9, mask := 2 }, { fd := 102, mask := 3 }]) ∧
    ∃ out, aeApiPoll sysTwoEvents loop3 none = some ((if (2 : Int) > 0 then 2 else 0), out) ∧
      out.setsize = loop3.setsize ∧
      out.fired.length = loop3.fired.length ∧
      (∀ j : Nat, (j : Int) < 2 → ∃ e f,
          [({ ident := 7, filter := EVFILT_READ } : kevent),
            { ident := 9, filter := EVFILT_WRITE }, { ident := 0, filter := 0 }][j]? = some e ∧
          out.fired[j]? = some f ∧
          f.fd = narrowToInt e.ident ∧
          (0 ≤ e.ident → e.ident < 2 ^ (INT_BITS - 1) → f.fd = e.ident) ∧
          (e.filter = EVFILT_READ → f.mask = AE_READABLE) ∧
          (e.filter = EVFILT_WRITE → f.mask = AE_WRITABLE) ∧
          (e.filter ≠ EVFILT_READ → e.filter ≠ EVFILT_WRITE → f.mask = 0)) ∧
      (∀ j : Nat, (2 : Int) ≤ (j : Int) → out.fired[j]? = loop3.fired[j]?) ∧
      ((2 : Int) ≤ 0 → out.fired = loop3.fired) :=
  ⟨by decide,
   aeApiPoll_translates sysTwoEvents loop3 none 2 _ (fun _ => rfl) (by decide) (by decide)⟩

/-- C5 (refuted as stated): a poll whose kevent call fails with -1 returns
exactly what a poll that timed out returns, namely 0 with the event loop
untouched, so the caller cannot tell the two apart. -/
theorem aeApiPoll_failure_looks_like_timeout :
    aeApiPoll sysFails loop3 none = aeApiPoll sysTimesOut loop3 none ∧
    aeApiPoll sysFails loop3 none = some (0, loop3) := by
  decide

/-- C5 (amended): when the kevent call inside aeApiPoll fails with -1,
aeApiPoll returns 0, the value it returns for a poll that timed out, and
writes nothing to the fired array; only the event buffer is as the kernel
left it. -/
theorem aeApiPoll_failure_returns_zero
    (sys : Option (List kevent) → Nat → Option timespec → Int × Option (List kevent))
    (eventLoop : aeEventLoop) (tvp : Option timeval) (buf : Option (List kevent))
    (hsys : ∀ t, sys eventLoop.apidata.events eventLoop.setsize t = (-1, buf)) :
    aeApiPoll sys eventLoop tvp =
      some (0, { eventLoop with apidata := { eventLoop.apidata with events := buf } }) ∧
    aeApiPoll sys eventLoop tvp =
      aeApiPoll (fun _ _ _ => (0, buf)) eventLoop tvp := by
  have hr : (match tvp with
      | some tv => sys eventLoop.apidata.events eventLoop.setsize
          (some { tv_sec := tv.tv_sec, tv_nsec := tv.tv_usec * 1000 })
      | none => sys eventLoop.apidata.events eventLoop.setsize none) = (-1, buf) := by
    cases tvp <;> simp [hsys]
  constructor
  · simp only [aeApiPoll, hr]
    simp
  · simp only [aeApiPoll, hr]
    cases tvp <;> simp

theorem aeApiPoll_failure_returns_zero_witness :
    (∀ t, sysFails loop3.apidata.events loop3.setsize t = (-1, loop3.apidata.events)) ∧
    (aeApiPoll sysFails loop3 (some { tv_sec := 1, tv_usec := 500 }) =
      some (0, { loop3 with apidata := { loop3.apidata with
                                          events := loop3.apidata.events } }) ∧
     aeApiPoll sysFails loop3 (some { tv_sec := 1, tv_usec := 500 }) =
      aeApiPoll (fun _ _ _ => (0, loop3.apidata.events)) loop3
        (some { tv_sec := 1, tv_usec := 500 })) :=
  ⟨fun _ => rfl,
   aeApiPoll_failure_returns_zero sysFails loop3 (some { tv_sec := 1, tv_usec := 500 })
     loop3.apidata.events (fun _ => rfl)⟩

theorem mem_registerWatch_self (interest : List kevent) (ke : kevent) :
    ke ∈ registerWatch interest ke := by
  unfold registerWatch
  split_ifs with h
  · exact h
  · simp

theorem mem_registerWatch_of_mem (interest : List kevent) (ke w : kevent) (h : w ∈ interest) :
    w ∈ registerWatch interest ke := by
  unfold registerWatch
  split_ifs
  · exact h
  · simp [h]

/-- C7: aeApiAddEvent returns -1 exactly when a registration call it
attempts fails and 0 otherwise; it asks for Readable before Writable and
stops at the first failure (the request record shows which calls were
made); a failed Readable call leaves the interest set unchanged and no
Writable call is made; when Readable succeeds and Writable fails the result
is -1 and the Readable watch stays registered; a result of 0 means every
requested watch is registered; with no bit requested the result is 0 and
nothing changes. -/
theorem aeApiAddEvent_first_failure (addFails : Kqueue → kevent → Bool) (kq : Kqueue)
    (fd mask : Int) :
    ((aeApiAddEvent addFails kq fd mask).1 = -1 ↔
      readableFails addFails kq fd mask ∨ writableFails addFails kq fd mask) ∧
    ((aeApiAddEvent addFails kq fd mask).1 = 0 ↔
      ¬ readableFails addFails kq fd mask ∧ ¬ writableFails addFails kq fd mask) ∧
    (aeApiAddEvent addFails kq fd mask).2.requests =
      kq.requests ++
        (if Int.land mask AE_READABLE ≠ 0 then [(KFlag.EV_ADD, readWatch fd)] else []) ++
        (if Int.land mask AE_WRITABLE ≠ 0 ∧ ¬ readableFails addFails kq fd mask
          then [(KFlag.EV_ADD, writeWatch fd)] else []) ∧
    (readableFails addFails kq fd mask →
      (aeApiAddEvent addFails kq fd mask).2.interest = kq.interest ∧
      (aeApiAddEvent addFails kq fd mask).2.requests =
        kq.requests ++ [(KFlag.EV_ADD, readWatch fd)]) ∧
    (Int.land mask AE_READABLE ≠ 0 → writableFails addFails kq fd mask →
      (aeApiAddEvent addFails kq fd mask).1 = -1 ∧
      readWatch fd ∈ (aeApiAddEvent addFails kq fd mask).2.interest) ∧
    ((aeApiAddEvent addFails kq fd mask).1 = 0 →
      (Int.land mask AE_READABLE ≠ 0 →
        readWatch fd ∈ (aeApiAddEvent addFails kq fd mask).2.interest) ∧
      (Int.land mask AE_WRITABLE ≠ 0 →
        writeWatch fd ∈ (aeApiAddEvent addFails kq fd mask).2.interest)) ∧
    (Int.land mask AE_READABLE = 0 → Int.land mask AE_WRITABLE = 0 →
      aeApiAddEvent addFails kq fd mask = (0, kq)) ∧
    aeApiAddEvent addFails kq fd 0 = (0, kq) := by
  have hne : readWatch fd ≠ writeWatch fd := by
    simp [readWatch, writeWatch, EVFILT_READ, EVFILT_WRITE]
  have h0R : Int.land 0 AE_READABLE = 0 := by decide
  have h0W : Int.land 0 AE_WRITABLE = 0 := by decide
  refine ⟨?_, ?_, ?_, ?_, ?_, ?_, ?_, ?_⟩
  all_goals
    by_cases hR : Int.land mask AE_READABLE = 0 <;>
    by_cases hW : Int.land mask AE_WRITABLE = 0 <;>
    by_cases fR : addFails kq (readWatch fd) = true <;>
    by_cases fW : addFails (afterReadable addFails kq fd mask) (writeWatch fd) = true <;>
    simp_all [aeApiAddEvent, keventChange, readableFails, writableFails, afterReadable,
      readWatch, writeWatch, mem_registerWatch_self, mem_registerWatch_of_mem]

theorem keventChange_delete_interest (addFails : Kqueue → kevent → Bool) (kq : Kqueue)
    (ke : kevent) :
    (keventChange addFails kq .EV_DELETE ke).2.interest =
      kq.interest.filter (fun w => decide (w ≠ ke)) := by
  unfold keventChange
  by_cases h : ke ∈ kq.interest
  · simp [h]
  · simp only [h, if_false]
    symm
    rw [List.filter_eq_self]
    intro w hw
    have : w ≠ ke := fun e => h (e ▸ hw)
    simpa using this

theorem aeApiDelEvent_interest (addFails : Kqueue → kevent → Bool) (kq : Kqueue)
    (fd mask : Int) :
    (aeApiDelEvent addFails kq fd mask).interest =
      kq.interest.filter (fun w => !namedBy fd mask w) := by
  have hne : EVFILT_READ ≠ EVFILT_WRITE := by decide
  unfold aeApiDelEvent
  by_cases hR : Int.land mask AE_READABLE = 0 <;>
  by_cases hW : Int.land mask AE_WRITABLE = 0 <;>
  simp only [hR, hW, ne_eq, not_true_eq_false, not_false_eq_true, if_true, if_false,
    keventChange_delete_interest, List.filter_filter]
  · symm
    rw [List.filter_eq_self]
    intro w _
    simp [namedBy, hR, hW]
  all_goals
    apply List.filter_congr
    intro w _
    rcases w with ⟨i, f⟩
    by_cases h1 : i = fd <;> by_cases h2 : f = EVFILT_READ <;>
      by_cases h3 : f = EVFILT_WRITE <;>
      simp_all [namedBy]

/-- C8: aeApiDelEvent returns nothing and is defined for every interest
set, descriptor and mask; the interest set it leaves is the old one without
the watches named by the mask bits, every other watch staying in place;
when none of the named watches is registered the interest set is unchanged;
and a second application leaves the interest set of the first. -/
theorem aeApiDelEvent_idempotent (addFails : Kqueue → kevent → Bool) (kq : Kqueue)
    (fd mask : Int) :
    (aeApiDelEvent addFails kq fd mask).interest =
      kq.interest.filter (fun w => !namedBy fd mask w) ∧
    (∀ w, w ∈ (aeApiDelEvent addFails kq fd mask).interest ↔
      w ∈ kq.interest ∧
        ¬ (w.ident = fd ∧
            ((Int.land mask AE_READABLE ≠ 0 ∧ w.filter = EVFILT_READ) ∨
             (Int.land mask AE_WRITABLE ≠ 0 ∧ w.filter = EVFILT_WRITE)))) ∧
    ((∀ w, w ∈ kq.interest → namedBy fd mask w = false) →
      (aeApiDelEvent addFails kq fd mask).interest = kq.interest) ∧
    (aeApiDelEvent addFails (aeApiDelEvent addFails kq fd mask) fd mask).interest =
      (aeApiDelEvent addFails kq fd mask).interest := by
  refine ⟨aeApiDelEvent_interest addFails kq fd mask, ?_, ?_, ?_⟩
  · intro w
    rw [aeApiDelEvent_interest, List.mem_filter]
    simp only [namedBy, Bool.not_eq_true', Bool.and_eq_false_imp, Bool.and_eq_true,
      Bool.or_eq_true, decide_eq_true_eq, Bool.or_eq_false_iff, Bool.and_eq_false_iff,
      decide_eq_false_iff_not, ne_eq, not_and, not_or, and_congr_right_iff]
  · intro h
    rw [aeApiDelEvent_interest, List.filter_eq_self]
    intro w hw
    simp [h w hw]
  · rw [aeApiDelEvent_interest addFails (aeApiDelEvent addFails kq fd mask),
      aeApiDelEvent_interest, List.filter_filter]
    apply List.filter_congr
    intro w _
    simp

/-! ## Part 3: the background job subsystem -/

@[simp]
theorem setAt_same {α : Type} (f : Nat → α) (i : Nat) (v : α) : setAt f i v i = v := by
  simp [setAt]

theorem setAt_other {α : Type} (f : Nat → α) (i j : Nat) (v : α) (h : j ≠ i) :
    setAt f i v j = f j := by
  simp [setAt, h]

theorem Inv_bioInit (type : Nat) : Inv bioInit type := by
  constructor <;> simp [bioInit, WorkerPc.holds, ClientPc.holds, listCreate, WorkerPc.node,
    WorkerPc.inflight, WorkerPc.owes, lagOf, NODE_LIMIT, ULLONG_BITS, WorkerPc.job]

/-- Frame. -/
theorem Inv_frame (s t : Bio) (type : Nat)
    (hcat : t.cat type = s.cat type)
    (hholds : ∀ i, (t.clients i).holds type = (s.clients i).holds type)
    (hadded : ∀ i, t.clients i = .cjAdded type ↔ s.clients i = .cjAdded type)
    (h : Inv s type) : Inv t type := by
  have hlag : lagOf t type = lagOf s type := by
    unfold lagOf
    rw [hcat]
    split
    · simp only [hadded]
    · rfl
  constructor
  · rw [hcat]; exact h.lockW
  · intro i; rw [hcat, hholds]; exact h.lockC i
  · rw [hcat]; exact h.subm
  · rw [hcat]; exact h.head
  · rw [hcat]; exact h.exec
  · rw [hcat, hlag]; exact h.count
  · rw [hcat]; exact h.bound
  · rw [hcat]; exact h.pend
  · rw [hcat]; exact h.ids
  · rw [hcat]; exact h.job

theorem two_pow_ullong : 2 ^ ULLONG_BITS = 18446744073709551616 := by
  norm_num [ULLONG_BITS]

theorem node_limit_eq : NODE_LIMIT = 18446744073709551615 := by
  norm_num [NODE_LIMIT]

theorem decrement_wraps (p : Nat) (h1 : 1 ≤ p) (h2 : p < 2 ^ ULLONG_BITS) :
    (p + 2 ^ ULLONG_BITS - 1) % 2 ^ ULLONG_BITS = p - 1 := by
  rw [two_pow_ullong] at *
  omega

theorem increment_wraps (p : Nat) (h2 : p + 1 < 2 ^ ULLONG_BITS) :
    (p + 1) % 2 ^ ULLONG_BITS = p + 1 := Nat.mod_eq_of_lt h2

theorem listDelNode_head (l : List listNode) (ln : listNode) (h : l.head? = some ln) :
    l = ln :: listDelNode l ln := by
  cases l with
  | nil => simp at h
  | cons a t =>
    simp only [List.head?_cons, Option.some.injEq] at h
    subst h
    simp [listDelNode]

theorem listDelNode_cons_self (ln : listNode) (rest : List listNode) :
    listDelNode (ln :: rest) ln = rest := by
  simp [listDelNode]

theorem workerStep_inv_commit (s : Bio) (ty : Nat) (c1 : Category) (h : Inv s ty) (ln : listNode)
    (hpc : (s.cat ty).bio_thread = .commitLocked ln)
    (hs : workerStep ty (s.cat ty) = some c1) :
    Inv { s with cat := setAt s.cat ty c1 } ty := by
  obtain ⟨lockW, lockC, subm, head, exec, count, bound, pend, ids, job⟩ := h
  unfold workerStep at hs
  simp only [hpc] at hs
  injection hs with hs; subst hs
  have hhead := head ln (by simp [hpc, WorkerPc.node])
  obtain ⟨rest, hjobs⟩ : ∃ rest, (s.cat ty).bio_jobs = ln :: rest := by
    cases hq : (s.cat ty).bio_jobs with
    | nil => simp [hq] at hhead
    | cons a t =>
      simp only [hq, List.head?_cons, Option.some.injEq] at hhead
      exact ⟨t, by rw [hhead]⟩
  have hm : (s.cat ty).bio_mutex = some .worker := lockW.mpr (by simp [hpc, WorkerPc.holds])
  have hlag : ∀ cl, lagOf { cat := setAt s.cat ty { s.cat ty with
      bio_jobs := listDelNode (s.cat ty).bio_jobs ln,
      committed := (s.cat ty).committed ++ [ln], bio_thread := .deleted }, clients := cl } ty = 0 := by
    intro cl; simp [lagOf, hm]
  have hlag0 : lagOf s ty = 0 := by simp [lagOf, hm]
  constructor
  · simp [hm, WorkerPc.holds]
  · intro i; simpa using lockC i
  · simp [subm, hjobs, listDelNode_cons_self]
  · simp [WorkerPc.node]
  · simp [exec, hpc, WorkerPc.inflight]
  · rw [hlag]
    simp only [setAt_same, hjobs, listDelNode_cons_self, WorkerPc.owes]
    simp only [hjobs, hpc, WorkerPc.owes, hlag0, List.length_cons] at count
    omega
  · simp only [setAt_same, hjobs, listDelNode_cons_self]
    simp only [hjobs, List.length_cons] at bound
    omega
  · simpa using pend
  · simpa using ids
  · simp [WorkerPc.job]

theorem workerStep_inv_deleted (s : Bio) (ty : Nat) (c1 : Category) (h : Inv s ty)
    (hpc : (s.cat ty).bio_thread = .deleted)
    (hs : workerStep ty (s.cat ty) = some c1) :
    Inv { s with cat := setAt s.cat ty c1 } ty := by
  obtain ⟨lockW, lockC, subm, head, exec, count, bound, pend, ids, job⟩ := h
  unfold workerStep at hs
  simp only [hpc] at hs
  injection hs with hs; subst hs
  have hm : (s.cat ty).bio_mutex = some .worker := lockW.mpr (by simp [hpc, WorkerPc.holds])
  have hlag0 : lagOf s ty = 0 := by simp [lagOf, hm]
  simp only [hpc, WorkerPc.owes, hlag0] at count
  have hdec := decrement_wraps (s.cat ty).bio_pending (by omega) pend
  constructor
  · simp [hm, WorkerPc.holds]
  · intro i; simpa using lockC i
  · simpa using subm
  · simp [WorkerPc.node]
  · simpa [hpc, WorkerPc.inflight] using exec
  · simp only [setAt_same, WorkerPc.owes, hdec, lagOf, hm]
    omega
  · simpa using bound
  · simp only [setAt_same, hdec]; omega
  · simpa using ids
  · simp [WorkerPc.job]

theorem workerStep_inv (s : Bio) (ty : Nat) (c1 : Category) (h : Inv s ty)
    (hs : workerStep ty (s.cat ty) = some c1) :
    Inv { s with cat := setAt s.cat ty c1 } ty := by
  cases hpc : (s.cat ty).bio_thread
  case commitLocked ln => exact workerStep_inv_commit s ty c1 h ln hpc hs
  case deleted => exact workerStep_inv_deleted s ty c1 h hpc hs
  all_goals
    obtain ⟨lockW, lockC, subm, head, exec, count, bound, pend, ids, job⟩ := h
    unfold workerStep at hs
    simp only [hpc] at hs
  case start =>
    split at hs
    · injection hs with hs; subst hs
      constructor <;> simp_all [WorkerPc.holds, WorkerPc.node, WorkerPc.inflight, WorkerPc.owes, WorkerPc.job, lagOf]
    · simp at hs
  case loopHead =>
    split at hs
    · injection hs with hs; subst hs
      constructor <;> simp_all [WorkerPc.holds, WorkerPc.node, WorkerPc.inflight, WorkerPc.owes, WorkerPc.job, lagOf]
    · split at hs
      · simp at hs
      · injection hs with hs; subst hs
        constructor <;> simp_all [WorkerPc.holds, WorkerPc.node, WorkerPc.inflight, WorkerPc.owes, WorkerPc.job, lagOf, listFirst]
  case condWait => simp at hs
  case condWoken =>
    split at hs
    · injection hs with hs; subst hs
      constructor <;> simp_all [WorkerPc.holds, WorkerPc.node, WorkerPc.inflight, WorkerPc.owes, WorkerPc.job, lagOf]
    · simp at hs
  case peeked ln jb =>
    injection hs with hs; subst hs
    constructor <;> simp_all [WorkerPc.holds, WorkerPc.node, WorkerPc.inflight, WorkerPc.owes, WorkerPc.job, lagOf]
  case execute ln jb =>
    split at hs
    · injection hs with hs; subst hs
      constructor <;> simp_all [WorkerPc.holds, WorkerPc.node, WorkerPc.inflight, WorkerPc.owes, WorkerPc.job, lagOf]
    · split at hs
      · injection hs with hs; subst hs
        constructor <;> simp_all [WorkerPc.holds, WorkerPc.node, WorkerPc.inflight, WorkerPc.owes, WorkerPc.job, lagOf]
      · simp at hs
  case processed ln jb =>
    injection hs with hs; subst hs
    constructor <;> simp_all [WorkerPc.holds, WorkerPc.node, WorkerPc.inflight, WorkerPc.owes, WorkerPc.job, lagOf]
  case freed ln =>
    split at hs
    · injection hs with hs; subst hs
      constructor <;> simp_all [WorkerPc.holds, WorkerPc.node, WorkerPc.inflight, WorkerPc.owes, WorkerPc.job, lagOf]
    · simp at hs

theorem head_append_of_head (l : List listNode) (x ln : listNode) (h : l.head? = some ln) :
    (l ++ [x]).head? = some ln := by
  cases l with
  | nil => simp at h
  | cons a t => simpa using h

theorem Inv.of_free {s : Bio} {ty : Nat} (h : Inv s ty) (hm : (s.cat ty).bio_mutex = none) :
    (s.cat ty).bio_thread.holds = false ∧ (∀ j, (s.clients j).holds ty = false) ∧
      lagOf s ty = 0 := by
  refine ⟨?_, ?_, ?_⟩
  · have := h.lockW
    rw [hm] at this
    simpa using this
  · intro j
    have := h.lockC j
    rw [hm] at this
    simpa using this
  · simp [lagOf, hm]

theorem Inv.of_client {s : Bio} {ty i : Nat} (h : Inv s ty)
    (hi : (s.clients i).holds ty = true) :
    (s.cat ty).bio_mutex = some (.client i) ∧
    (s.cat ty).bio_thread.holds = false ∧ (∀ j, j ≠ i → (s.clients j).holds ty = false) := by
  have hm : (s.cat ty).bio_mutex = some (.client i) := (h.lockC i).mpr hi
  refine ⟨hm, ?_, ?_⟩
  · have := h.lockW
    rw [hm] at this
    simpa using this
  · intro j hj
    have := h.lockC j
    rw [hm] at this
    have hne : ¬ i = j := fun e => hj e.symm
    simpa [hne] using this

/-- A step that takes the free mutex for client `i`. -/
theorem Inv_lock (s : Bio) (ty i : Nat) (pc : ClientPc) (h : Inv s ty)
    (hm : (s.cat ty).bio_mutex = none)
    (hpc : pc.holds ty = true) (hne : pc ≠ .cjAdded ty) :
    Inv { cat := setAt s.cat ty { s.cat ty with bio_mutex := some (.client i) },
          clients := setAt s.clients i pc } ty := by
  obtain ⟨hw, hc, hlag⟩ := h.of_free hm
  obtain ⟨lockW, lockC, subm, head, exec, count, bound, pend, ids, job⟩ := h
  refine ⟨?_, ?_, ?_, ?_, ?_, ?_, ?_, ?_, ?_, ?_⟩
  · simp [hw]
  · intro j
    by_cases hj : j = i
    · subst hj; simp [hpc]
    · have : ¬ i = j := fun e => hj e.symm
      simp [setAt, hj, hc j, this]
  · simpa using subm
  · simpa using head
  · simpa using exec
  · rw [hlag] at count
    simpa [lagOf, hne] using count
  · simpa using bound
  · simpa using pend
  · simpa using ids
  · simpa using job

/-- A step by which client `i` gives the mutex back. -/
theorem Inv_unlock (s : Bio) (ty i : Nat) (pc : ClientPc) (h : Inv s ty)
    (hi : (s.clients i).holds ty = true) (hadded : s.clients i ≠ .cjAdded ty)
    (hpc : pc.holds ty = false) :
    Inv { cat := setAt s.cat ty { s.cat ty with bio_mutex := none },
          clients := setAt s.clients i pc } ty := by
  obtain ⟨hm, hw, hc⟩ := h.of_client hi
  obtain ⟨lockW, lockC, subm, head, exec, count, bound, pend, ids, job⟩ := h
  have hlag : lagOf s ty = 0 := by simp [lagOf, hm, hadded]
  refine ⟨?_, ?_, ?_, ?_, ?_, ?_, ?_, ?_, ?_, ?_⟩
  · simp [hw]
  · intro j
    by_cases hj : j = i
    · subst hj; simp [hpc]
    · simp [setAt, hj, hc j hj]
  · simpa using subm
  · simpa using head
  · simpa using exec
  · rw [hlag] at count
    simpa [lagOf] using count
  · simpa using bound
  · simpa using pend
  · simpa using ids
  · simpa using job

theorem Inv_append (s : Bio) (ty i : Nat) (jb : bio_job) (h : Inv s ty)
    (hpc : s.clients i = .cjLocked ty jb)
    (hroom : listLength (s.cat ty).bio_jobs < NODE_LIMIT) :
    Inv { cat := setAt s.cat ty
            { s.cat ty with
                bio_jobs := listAddNodeTail (s.cat ty).bio_jobs (s.cat ty).allocated jb,
                allocated := (s.cat ty).allocated + 1,
                submitted := (s.cat ty).submitted ++
                  [{ id := (s.cat ty).allocated, value := jb }] },
          clients := setAt s.clients i (.cjAdded ty) } ty := by
  obtain ⟨hm, hw, hc⟩ := h.of_client (i := i) (by simp [hpc, ClientPc.holds])
  obtain ⟨lockW, lockC, subm, head, exec, count, bound, pend, ids, job⟩ := h
  have hlag : lagOf s ty = 0 := by simp [lagOf, hm, hpc]
  refine ⟨?_, ?_, ?_, ?_, ?_, ?_, ?_, ?_, ?_, ?_⟩
  · simp [hw, hm]
  · intro j
    by_cases hj : j = i
    · subst hj; simp [hm, ClientPc.holds]
    · have : ¬ i = j := fun e => hj e.symm
      simp [setAt, hj, hc j hj, hm, this]
  · simp [subm, listAddNodeTail]
  · intro ln hln
    have := head ln (by simpa using hln)
    simpa [listAddNodeTail] using head_append_of_head _ _ _ this
  · simpa using exec
  · rw [hlag] at count
    simp only [setAt_same, lagOf, hm, listAddNodeTail, List.length_append,
      List.length_singleton, if_true]
    omega
  · simp only [setAt_same, listAddNodeTail, List.length_append, List.length_singleton]
    simp only [listLength] at hroom
    omega
  · simpa using pend
  · simp [ids, List.range_succ]
  · simpa using job

theorem Inv_increment (s : Bio) (ty i : Nat) (h : Inv s ty)
    (hpc : s.clients i = .cjAdded ty) :
    Inv { cat := setAt s.cat ty
            { s.cat ty with
                bio_pending := ((s.cat ty).bio_pending + 1) % 2 ^ ULLONG_BITS },
          clients := setAt s.clients i (.cjCounted ty) } ty := by
  obtain ⟨hm, hw, hc⟩ := h.of_client (i := i) (by simp [hpc, ClientPc.holds])
  obtain ⟨lockW, lockC, subm, head, exec, count, bound, pend, ids, job⟩ := h
  have hlag : lagOf s ty = 1 := by simp [lagOf, hm, hpc]
  have howes : (s.cat ty).bio_thread.owes = 0 := by
    cases hth : (s.cat ty).bio_thread <;> simp [WorkerPc.owes]
    simp [hth, WorkerPc.holds] at hw
  rw [hlag, howes] at count
  have hlt : (s.cat ty).bio_pending + 1 < 2 ^ ULLONG_BITS := by
    rw [two_pow_ullong]
    rw [node_limit_eq] at bound
    omega
  have hinc := increment_wraps _ hlt
  refine ⟨?_, ?_, ?_, ?_, ?_, ?_, ?_, ?_, ?_, ?_⟩
  · simp [hw, hm]
  · intro j
    by_cases hj : j = i
    · subst hj; simp [hm, ClientPc.holds]
    · have : ¬ i = j := fun e => hj e.symm
      simp [setAt, hj, hc j hj, hm, this]
  · simpa using subm
  · simpa using head
  · simpa using exec
  · simp only [setAt_same, lagOf, hm, hinc, howes]
    simp
    omega
  · simpa using bound
  · simp only [setAt_same, hinc]; exact hlt
  · simpa using ids
  · simpa using job

theorem Inv_signal (s : Bio) (ty i : Nat) (h : Inv s ty)
    (hpc : s.clients i = .cjCounted ty) :
    Inv { cat := setAt s.cat ty
            { s.cat ty with
                bio_thread := if (s.cat ty).bio_thread = .condWait then .condWoken
                              else (s.cat ty).bio_thread },
          clients := setAt s.clients i (.cjSignaled ty) } ty := by
  obtain ⟨hm, hw, hc⟩ := h.of_client (i := i) (by simp [hpc, ClientPc.holds])
  obtain ⟨lockW, lockC, subm, head, exec, count, bound, pend, ids, job⟩ := h
  have hlag : lagOf s ty = 0 := by simp [lagOf, hm, hpc]
  by_cases hth : (s.cat ty).bio_thread = .condWait
  · simp only [hth, if_true]
    rw [hth] at head exec count job
    refine ⟨?_, ?_, ?_, ?_, ?_, ?_, ?_, ?_, ?_, ?_⟩
    · simp [hm, WorkerPc.holds]
    · intro j
      by_cases hj : j = i
      · subst hj; simp [hm, ClientPc.holds]
      · have : ¬ i = j := fun e => hj e.symm
        simp [setAt, hj, hc j hj, hm, this]
    · simpa using subm
    · simp [WorkerPc.node]
    · simpa [WorkerPc.inflight] using exec
    · rw [hlag] at count
      simpa [lagOf, hm, WorkerPc.owes] using count
    · simpa using bound
    · simpa using pend
    · simpa using ids
    · simp [WorkerPc.job]
  · simp only [hth, if_false]
    refine ⟨?_, ?_, ?_, ?_, ?_, ?_, ?_, ?_, ?_, ?_⟩
    · simp [hm, hw]
    · intro j
      by_cases hj : j = i
      · subst hj; simp [hm, ClientPc.holds]
      · have : ¬ i = j := fun e => hj e.symm
        simp [setAt, hj, hc j hj, hm, this]
    · simpa using subm
    · simpa using head
    · simpa using exec
    · rw [hlag] at count
      simpa [lagOf, hm] using count
    · simpa using bound
    · simpa using pend
    · simpa using ids
    · simpa using job

theorem Inv_read (s : Bio) (ty i : Nat) (h : Inv s ty)
    (hpc : s.clients i = .pjLocked ty) :
    Inv { s with clients := setAt s.clients i (.pjRead ty (s.cat ty).bio_pending) } ty := by
  refine Inv_frame s _ ty rfl ?_ ?_ h
  · intro j; by_cases hj : j = i <;> simp [setAt, hj, hpc, ClientPc.holds]
  · intro j; by_cases hj : j = i <;> simp [setAt, hj, hpc]

theorem clientStep_inv (s s1 : Bio) (i type : Nat) (h : Inv s type)
    (hs : clientStep i s = some s1) : Inv s1 type := by
  unfold clientStep at hs
  cases hpc : s.clients i <;> simp only [hpc] at hs
  case idle => simp at hs
  case pjReturned => simp at hs
  case cjReady ty jb =>
    split at hs
    · rename_i hm
      injection hs with hs; subst hs
      by_cases hty : ty = type
      · subst hty
        exact Inv_lock s ty i _ h hm (by simp [ClientPc.holds]) (by simp)
      · refine Inv_frame s _ type ?_ ?_ ?_ h
        · simp [setAt, Ne.symm hty]
        · intro j; by_cases hj : j = i <;> simp [setAt, hj, hpc, ClientPc.holds, hty]
        · intro j; by_cases hj : j = i <;> simp [setAt, hj, hpc, hty]
    · simp at hs
  case cjLocked ty jb =>
    split at hs
    · rename_i hroom
      injection hs with hs; subst hs
      by_cases hty : ty = type
      · subst hty
        exact Inv_append s ty i jb h hpc hroom
      · refine Inv_frame s _ type ?_ ?_ ?_ h
        · simp [setAt, Ne.symm hty]
        · intro j; by_cases hj : j = i <;> simp [setAt, hj, hpc, ClientPc.holds, hty]
        · intro j; by_cases hj : j = i <;> simp [setAt, hj, hpc, hty]
    · simp at hs
  case cjAdded ty =>
    injection hs with hs; subst hs
    by_cases hty : ty = type
    · subst hty
      exact Inv_increment s ty i h hpc
    · refine Inv_frame s _ type ?_ ?_ ?_ h
      · simp [setAt, Ne.symm hty]
      · intro j; by_cases hj : j = i <;> simp [setAt, hj, hpc, ClientPc.holds, hty]
      · intro j; by_cases hj : j = i <;> simp [setAt, hj, hpc, hty]
  case cjCounted ty =>
    injection hs with hs; subst hs
    by_cases hty : ty = type
    · subst hty
      exact Inv_signal s ty i h hpc
    · refine Inv_frame s _ type ?_ ?_ ?_ h
      · simp [setAt, Ne.symm hty]
      · intro j; by_cases hj : j = i <;> simp [setAt, hj, hpc, ClientPc.holds, hty]
      · intro j; by_cases hj : j = i <;> simp [setAt, hj, hpc, hty]
  case cjSignaled ty =>
    injection hs with hs; subst hs
    by_cases hty : ty = type
    · subst hty
      exact Inv_unlock s ty i _ h (by simp [hpc, ClientPc.holds]) (by simp [hpc])
        (by simp [ClientPc.holds])
    · refine Inv_frame s _ type ?_ ?_ ?_ h
      · simp [setAt, Ne.symm hty]
      · intro j; by_cases hj : j = i <;> simp [setAt, hj, hpc, ClientPc.holds, hty]
      · intro j; by_cases hj : j = i <;> simp [setAt, hj, hpc, hty]
  case pjEntry ty =>
    split at hs
    · rename_i hm
      injection hs with hs; subst hs
      by_cases hty : ty = type
      · subst hty
        exact Inv_lock s ty i _ h hm (by simp [ClientPc.holds]) (by simp)
      · refine Inv_frame s _ type ?_ ?_ ?_ h
        · simp [setAt, Ne.symm hty]
        · intro j; by_cases hj : j = i <;> simp [setAt, hj, hpc, ClientPc.holds, hty]
        · intro j; by_cases hj : j = i <;> simp [setAt, hj, hpc, hty]
    · simp at hs
  case pjLocked ty =>
    injection hs with hs; subst hs
    by_cases hty : ty = type
    · subst hty
      exact Inv_read s ty i h hpc
    · refine Inv_frame s _ type rfl ?_ ?_ h
      · intro j; by_cases hj : j = i <;> simp [setAt, hj, hpc, ClientPc.holds, hty]
      · intro j; by_cases hj : j = i <;> simp [setAt, hj, hpc, hty]
  case pjRead ty val =>
    injection hs with hs; subst hs
    by_cases hty : ty = type
    · subst hty
      exact Inv_unlock s ty i _ h (by simp [hpc, ClientPc.holds]) (by simp [hpc])
        (by simp [ClientPc.holds])
    · refine Inv_frame s _ type ?_ ?_ ?_ h
      · simp [setAt, Ne.symm hty]
      · intro j; by_cases hj : j = i <;> simp [setAt, hj, hpc, ClientPc.holds, hty]
      · intro j; by_cases hj : j = i <;> simp [setAt, hj, hpc, hty]

theorem Inv_call (s : Bio) (i type : Nat) (pc : ClientPc) (h : Inv s type)
    (hcan : (s.clients i).canCall = true)
    (hpc : ∀ ty, pc.holds ty = false) (hne : ∀ ty, pc ≠ .cjAdded ty) :
    Inv { s with clients := setAt s.clients i pc } type := by
  have hold : (s.clients i).holds type = false ∧ s.clients i ≠ .cjAdded type := by
    cases hc : s.clients i <;> simp [hc, ClientPc.canCall, ClientPc.holds] at hcan ⊢
  refine Inv_frame s _ type rfl ?_ ?_ h
  · intro j; by_cases hj : j = i
    · subst hj; simp [hpc, hold.1]
    · simp [setAt, hj]
  · intro j; by_cases hj : j = i
    · subst hj; simp [hne, hold.2]
    · simp [setAt, hj]

theorem step_inv (s s1 : Bio) (a : Action) (type : Nat) (h : Inv s type)
    (hs : step s a = some s1) : Inv s1 type := by
  cases a with
  | worker ty =>
    simp only [step] at hs
    split at hs
    · cases hw : workerStep ty (s.cat ty) with
      | none => simp [hw] at hs
      | some c1 =>
        simp only [hw, Option.some.injEq] at hs
        subst hs
        by_cases hty : ty = type
        · subst hty
          exact workerStep_inv s ty c1 h hw
        · refine Inv_frame s _ type ?_ ?_ ?_ h
          · simp [setAt, Ne.symm hty]
          · intro j; rfl
          · intro j; rfl
    · simp at hs
  | spurious ty =>
    simp only [step] at hs
    split at hs
    · rename_i hg
      injection hs with hs; subst hs
      by_cases hty : ty = type
      · subst hty
        obtain ⟨lockW, lockC, subm, head, exec, count, bound, pend, ids, job⟩ := h
        rw [hg.2] at lockW head exec count job
        refine ⟨?_, ?_, ?_, ?_, ?_, ?_, ?_, ?_, ?_, ?_⟩
        · simpa [WorkerPc.holds] using lockW
        · intro j; simpa using lockC j
        · simpa using subm
        · simp [WorkerPc.node]
        · simpa [WorkerPc.inflight] using exec
        · simpa [lagOf, WorkerPc.owes] using count
        · simpa using bound
        · simpa using pend
        · simpa using ids
        · simp [WorkerPc.job]
      · refine Inv_frame s _ type ?_ ?_ ?_ h
        · simp [setAt, Ne.symm hty]
        · intro j; rfl
        · intro j; rfl
    · simp at hs
  | create i ty arg1 arg2 arg3 now =>
    simp only [step] at hs
    split at hs
    · rename_i hg
      injection hs with hs; subst hs
      exact Inv_call s i type _ h hg.2 (by intro t; simp [ClientPc.holds]) (by intro t; simp)
    · simp at hs
  | pending i ty =>
    simp only [step] at hs
    split at hs
    · rename_i hg
      injection hs with hs; subst hs
      exact Inv_call s i type _ h hg.2 (by intro t; simp [ClientPc.holds]) (by intro t; simp)
    · simp at hs
  | client i => exact clientStep_inv s s1 i type h hs

theorem run_inv (acts : List Action) : ∀ (s s1 : Bio) (type : Nat), Inv s type →
    run s acts = some s1 → Inv s1 type := by
  induction acts with
  | nil =>
    intro s s1 type h hs
    simp only [run, Option.some.injEq] at hs
    subst hs; exact h
  | cons a rest ih =>
    intro s s1 type h hs
    simp only [run] at hs
    cases hstep : step s a with
    | none => simp [hstep] at hs
    | some s2 =>
      simp only [hstep] at hs
      exact ih s2 s1 type (step_inv s s2 a type h hstep) hs

theorem reachable_inv (acts : List Action) (s : Bio) (type : Nat)
    (hs : run bioInit acts = some s) : Inv s type :=
  run_inv acts bioInit s type (Inv_bioInit type) hs

theorem Inv2_bioInit (type : Nat) : Inv2 bioInit type := by
  constructor <;> simp [bioInit]

theorem Inv2_frame (s t : Bio) (type : Nat)
    (hperf : (t.cat type).performed = (s.cat type).performed)
    (hexec : (t.cat type).executed = (s.cat type).executed)
    (hpend : (t.cat type).bio_pending = (s.cat type).bio_pending)
    (hread : ∀ i val, t.clients i = .pjRead type val → s.clients i = .pjRead type val)
    (h : Inv2 s type) : Inv2 t type := by
  constructor
  · rw [hperf, hexec]; exact h.perf
  · intro i val hi
    rw [hpend]
    exact h.read i val (hread i val hi)

theorem workerStep_inv2 (s : Bio) (ty : Nat) (c1 : Category) (h : Inv s ty) (h2 : Inv2 s ty)
    (hs : workerStep ty (s.cat ty) = some c1) :
    Inv2 { s with cat := setAt s.cat ty c1 } ty := by
  unfold workerStep at hs
  cases hpc : (s.cat ty).bio_thread <;> simp only [hpc] at hs
  case start =>
    split at hs
    · injection hs with hs; subst hs
      exact Inv2_frame s _ ty (by simp) (by simp) (by simp) (fun _ _ hi => hi) h2
    · simp at hs
  case loopHead =>
    split at hs
    · injection hs with hs; subst hs
      exact Inv2_frame s _ ty (by simp) (by simp) (by simp) (fun _ _ hi => hi) h2
    · split at hs
      · simp at hs
      · injection hs with hs; subst hs
        exact Inv2_frame s _ ty (by simp) (by simp) (by simp) (fun _ _ hi => hi) h2
  case condWait => simp at hs
  case condWoken =>
    split at hs
    · injection hs with hs; subst hs
      exact Inv2_frame s _ ty (by simp) (by simp) (by simp) (fun _ _ hi => hi) h2
    · simp at hs
  case peeked ln jb =>
    injection hs with hs; subst hs
    exact Inv2_frame s _ ty (by simp) (by simp) (by simp) (fun _ _ hi => hi) h2
  case execute ln jb =>
    have hjob : jb = ln.value := by
      obtain ⟨ln1, h1, h2⟩ := h.job jb (by simp [hpc, WorkerPc.job])
      simp only [hpc, WorkerPc.node, Option.some.injEq] at h1
      rw [h1]; exact h2
    split at hs
    · rename_i hty
      injection hs with hs; subst hs
      constructor
      · simp only [setAt_same]
        rw [h2.perf]
        simp [operationOf, hty, hjob]
      · intro i val hi
        simpa using h2.read i val hi
    · split at hs
      · rename_i hty0 hty
        injection hs with hs; subst hs
        constructor
        · simp only [setAt_same]
          rw [h2.perf]
          simp [operationOf, hty0, hjob]
        · intro i val hi
          simpa using h2.read i val hi
      · simp at hs
  case processed ln jb =>
    injection hs with hs; subst hs
    exact Inv2_frame s _ ty (by simp) (by simp) (by simp) (fun _ _ hi => hi) h2
  case freed ln =>
    split at hs
    · injection hs with hs; subst hs
      exact Inv2_frame s _ ty (by simp) (by simp) (by simp) (fun _ _ hi => hi) h2
    · simp at hs
  case commitLocked ln =>
    injection hs with hs; subst hs
    exact Inv2_frame s _ ty (by simp) (by simp) (by simp) (fun _ _ hi => hi) h2
  case deleted =>
    injection hs with hs; subst hs
    have hm : (s.cat ty).bio_mutex = some .worker := h.lockW.mpr (by simp [hpc, WorkerPc.holds])
    constructor
    · simpa using h2.perf
    · intro i val hi
      have := (h.lockC i).mpr (by
        have hi2 : s.clients i = .pjRead ty val := hi
        simp [hi2, ClientPc.holds])
      rw [hm] at this
      simp at this

theorem Inv2_frame_set (s : Bio) (ty : Nat) (c1 : Category) (cl : Nat → ClientPc) (type : Nat)
    (hperf : c1.performed = (s.cat ty).performed)
    (hexec : c1.executed = (s.cat ty).executed)
    (hpend : c1.bio_pending = (s.cat ty).bio_pending)
    (hread : ∀ i val, cl i = .pjRead type val → s.clients i = .pjRead type val)
    (h : Inv2 s type) : Inv2 { cat := setAt s.cat ty c1, clients := cl } type := by
  refine Inv2_frame s _ type ?_ ?_ ?_ hread h
  · show (setAt s.cat ty c1 type).performed = _
    unfold setAt; split
    · rename_i e; subst e; exact hperf
    · rfl
  · show (setAt s.cat ty c1 type).executed = _
    unfold setAt; split
    · rename_i e; subst e; exact hexec
    · rfl
  · show (setAt s.cat ty c1 type).bio_pending = _
    unfold setAt; split
    · rename_i e; subst e; exact hpend
    · rfl

theorem setAt_read (cl : Nat → ClientPc) (i : Nat) (pc : ClientPc) (type : Nat)
    (hpc : ∀ val, pc ≠ .pjRead type val) (j val : Nat)
    (hj : setAt cl i pc j = .pjRead type val) : cl j = .pjRead type val := by
  unfold setAt at hj
  split at hj
  · exact absurd hj (hpc val)
  · exact hj

theorem clientStep_inv2 (s s1 : Bio) (i type : Nat) (h : Inv s type) (h2 : Inv2 s type)
    (hs : clientStep i s = some s1) : Inv2 s1 type := by
  unfold clientStep at hs
  cases hpc : s.clients i <;> simp only [hpc] at hs
  case idle => simp at hs
  case pjReturned => simp at hs
  case cjReady ty jb =>
    split at hs
    · injection hs with hs; subst hs
      exact Inv2_frame_set s _ _ _ type rfl rfl rfl
        (setAt_read _ _ _ _ (by simp)) h2
    · simp at hs
  case cjLocked ty jb =>
    split at hs
    · injection hs with hs; subst hs
      exact Inv2_frame_set s _ _ _ type rfl rfl rfl
        (setAt_read _ _ _ _ (by simp)) h2
    · simp at hs
  case cjAdded ty =>
    injection hs with hs; subst hs
    by_cases hty : ty = type
    · subst hty
      obtain ⟨hm, hw, hc⟩ := h.of_client (i := i) (by simp [hpc, ClientPc.holds])
      constructor
      · simpa using h2.perf
      · intro j val hj
        have hj2 := setAt_read _ _ _ _ (by simp) j val hj
        have hji : j ≠ i := by
          intro e; subst e; rw [hpc] at hj2; simp at hj2
        have := hc j hji
        simp [hj2, ClientPc.holds] at this
    · exact Inv2_frame s _ type (by simp [setAt, Ne.symm hty]) (by simp [setAt, Ne.symm hty])
        (by simp [setAt, Ne.symm hty]) (setAt_read _ _ _ _ (by simp)) h2
  case cjCounted ty =>
    injection hs with hs; subst hs
    exact Inv2_frame_set s _ _ _ type rfl rfl rfl
      (setAt_read _ _ _ _ (by simp)) h2
  case cjSignaled ty =>
    injection hs with hs; subst hs
    exact Inv2_frame_set s _ _ _ type rfl rfl rfl
      (setAt_read _ _ _ _ (by simp)) h2
  case pjEntry ty =>
    split at hs
    · injection hs with hs; subst hs
      exact Inv2_frame_set s _ _ _ type rfl rfl rfl
        (setAt_read _ _ _ _ (by simp)) h2
    · simp at hs
  case pjLocked ty =>
    injection hs with hs; subst hs
    constructor
    · exact h2.perf
    · intro j val hj
      by_cases hji : j = i
      · subst hji
        simp only [setAt_same, ClientPc.pjRead.injEq] at hj
        obtain ⟨e1, e2⟩ := hj
        subst e1; exact e2.symm
      · have hj2 : s.clients j = .pjRead type val := by
          simpa [setAt, hji] using hj
        exact h2.read j val hj2
  case pjRead ty val =>
    injection hs with hs; subst hs
    exact Inv2_frame_set s _ _ _ type rfl rfl rfl
      (setAt_read _ _ _ _ (by simp)) h2

theorem step_inv2 (s s1 : Bio) (a : Action) (type : Nat) (h : Inv s type) (h2 : Inv2 s type)
    (hs : step s a = some s1) : Inv2 s1 type := by
  cases a with
  | worker ty =>
    simp only [step] at hs
    split at hs
    · cases hw : workerStep ty (s.cat ty) with
      | none => simp [hw] at hs
      | some c1 =>
        simp only [hw, Option.some.injEq] at hs
        subst hs
        by_cases hty : ty = type
        · subst hty
          exact workerStep_inv2 s ty c1 h h2 hw
        · exact Inv2_frame s _ type (by simp [setAt, Ne.symm hty])
            (by simp [setAt, Ne.symm hty]) (by simp [setAt, Ne.symm hty])
            (fun _ _ hi => hi) h2
    · simp at hs
  | spurious ty =>
    simp only [step] at hs
    split at hs
    · injection hs with hs; subst hs
      exact Inv2_frame_set s _ _ _ type rfl rfl rfl
        (fun _ _ hi => hi) h2
    · simp at hs
  | create i ty arg1 arg2 arg3 now =>
    simp only [step] at hs
    split at hs
    · injection hs with hs; subst hs
      exact Inv2_frame s _ type rfl rfl rfl (setAt_read _ _ _ _ (by simp)) h2
    · simp at hs
  | pending i ty =>
    simp only [step] at hs
    split at hs
    · injection hs with hs; subst hs
      exact Inv2_frame s _ type rfl rfl rfl (setAt_read _ _ _ _ (by simp)) h2
    · simp at hs
  | client i => exact clientStep_inv2 s s1 i type h h2 hs

theorem run_inv2 (acts : List Action) : ∀ (s s1 : Bio) (type : Nat), Inv s type →
    Inv2 s type → run s acts = some s1 → Inv2 s1 type := by
  induction acts with
  | nil =>
    intro s s1 type _ h2 hs
    simp only [run, Option.some.injEq] at hs
    subst hs; exact h2
  | cons a rest ih =>
    intro s s1 type h h2 hs
    simp only [run] at hs
    cases hstep : step s a with
    | none => simp [hstep] at hs
    | some s2 =>
      simp only [hstep] at hs
      exact ih s2 s1 type (step_inv s s2 a type h hstep) (step_inv2 s s2 a type h h2 hstep) hs

theorem reachable_inv2 (acts : List Action) (s : Bio) (type : Nat)
    (hs : run bioInit acts = some s) : Inv2 s type :=
  run_inv2 acts bioInit s type (Inv_bioInit type) (Inv2_bioInit type) hs

/-- C1: in every state reached from bioInit by any interleaving of client
steps and worker steps, and for every category, the nodes whose operation
the worker has performed are an initial segment of the nodes submitted to
the category, in submission order; the submitted nodes are pairwise
distinct, so no job is executed twice, none is skipped and none overtakes
an earlier one; and the operations performed are those of the executed
jobs, in the same order. -/
theorem bio_fifo_order (acts : List Action) (s : Bio) (type : Nat)
    (hs : run bioInit acts = some s) :
    (s.cat type).executed <+: (s.cat type).submitted ∧
    ((s.cat type).submitted.map (fun n => n.id)).Nodup ∧
    (s.cat type).executed.Nodup ∧
    (s.cat type).performed = (s.cat type).executed.map (operationOf type) ∧
    (∀ k, k < (s.cat type).executed.length →
      (s.cat type).executed[k]? = (s.cat type).submitted[k]?) := by
  have h := reachable_inv acts s type hs
  have h2 := reachable_inv2 acts s type hs
  have hpre : (s.cat type).executed <+: (s.cat type).submitted := by
    rw [h.exec, h.subm]
    cases hth : (s.cat type).bio_thread.inflight with
    | nil => exact ⟨(s.cat type).bio_jobs, by simp⟩
    | cons ln rest =>
      have hnode : (s.cat type).bio_thread.node = some ln ∧ rest = [] := by
        cases hpc : (s.cat type).bio_thread <;>
          simp [hpc, WorkerPc.inflight, WorkerPc.node] at hth ⊢ <;> exact hth
      have hhead := h.head ln hnode.1
      cases hq : (s.cat type).bio_jobs with
      | nil => simp [hq] at hhead
      | cons a t =>
        simp only [hq, List.head?_cons, Option.some.injEq] at hhead
        refine ⟨t, ?_⟩
        rw [hnode.2, hhead]
        simp
  have hids : ((s.cat type).submitted.map (fun n => n.id)).Nodup := by
    rw [h.ids]; exact List.nodup_range _
  have hsub : (s.cat type).submitted.Nodup := List.Nodup.of_map _ hids
  refine ⟨hpre, hids, ?_, h2.perf, ?_⟩
  · obtain ⟨t, ht⟩ := hpre
    rw [← ht] at hsub
    exact (List.nodup_append.mp hsub).1
  · intro k hk
    obtain ⟨t, ht⟩ := hpre
    rw [← ht, List.getElem?_append_left hk]

/-- C2: in every state reached from bioInit and for every category, the
counter equals the queue length whenever the mutex is free, and more
precisely in every state except the two one-statement windows inside the
critical sections: between the append and the increment of
bioCreateBackgroundJob the queue is one longer than the counter, and
between the unlink and the decrement of the worker the counter is one more
than the queue. The increment never wraps and the decrement is never
applied to zero. -/
theorem bio_pending_matches_queue (acts : List Action) (s : Bio) (type : Nat)
    (hs : run bioInit acts = some s) :
    ((s.cat type).bio_mutex = none →
      (s.cat type).bio_pending = listLength (s.cat type).bio_jobs) ∧
    ((s.cat type).bio_pending = listLength (s.cat type).bio_jobs ↔
      ((s.cat type).bio_thread ≠ .deleted ∧ ∀ i, s.clients i ≠ .cjAdded type)) ∧
    (∀ i, s.clients i = .cjAdded type →
      (s.cat type).bio_pending + 1 = listLength (s.cat type).bio_jobs ∧
      ((s.cat type).bio_pending + 1) % 2 ^ ULLONG_BITS = (s.cat type).bio_pending + 1) ∧
    ((s.cat type).bio_thread = .deleted →
      (s.cat type).bio_pending = listLength (s.cat type).bio_jobs + 1 ∧
      1 ≤ (s.cat type).bio_pending ∧
      ((s.cat type).bio_pending + 2 ^ ULLONG_BITS - 1) % 2 ^ ULLONG_BITS =
        (s.cat type).bio_pending - 1) ∧
    (s.cat type).bio_pending < 2 ^ ULLONG_BITS := by
  have h := reachable_inv acts s type hs
  have hadded : ∀ i, s.clients i = .cjAdded type →
      lagOf s type = 1 ∧ (s.cat type).bio_thread.owes = 0 := by
    intro i hi
    obtain ⟨hm, hw, _⟩ := h.of_client (i := i) (by simp [hi, ClientPc.holds])
    refine ⟨by simp [lagOf, hm, hi], ?_⟩
    cases hth : (s.cat type).bio_thread <;> simp [WorkerPc.owes]
    simp [hth, WorkerPc.holds] at hw
  have hdel : (s.cat type).bio_thread = .deleted →
      lagOf s type = 0 ∧ (s.cat type).bio_thread.owes = 1 := by
    intro hth
    have hm : (s.cat type).bio_mutex = some .worker :=
      h.lockW.mpr (by simp [hth, WorkerPc.holds])
    exact ⟨by simp [lagOf, hm], by simp [hth, WorkerPc.owes]⟩
  have hcount := h.count
  have hbound := h.bound
  have hpend := h.pend
  rw [two_pow_ullong] at hpend
  rw [node_limit_eq] at hbound
  refine ⟨?_, ?_, ?_, ?_, h.pend⟩
  · intro hm
    obtain ⟨hw, _, hlag⟩ := h.of_free hm
    have : (s.cat type).bio_thread.owes = 0 := by
      cases hth : (s.cat type).bio_thread <;> simp [WorkerPc.owes]
      simp [hth, WorkerPc.holds] at hw
    simp only [listLength]; omega
  · constructor
    · intro heq
      simp only [listLength] at heq
      refine ⟨?_, ?_⟩
      · intro hth
        obtain ⟨h1, h2⟩ := hdel hth
        omega
      · intro i hi
        obtain ⟨h1, h2⟩ := hadded i hi
        omega
    · rintro ⟨hth, hno⟩
      have h1 : (s.cat type).bio_thread.owes = 0 := by
        cases hpc : (s.cat type).bio_thread <;> simp [WorkerPc.owes]
        exact hth hpc
      have h2 : lagOf s type = 0 := by
        unfold lagOf
        split
        · rename_i i _
          simp [hno i]
        · rfl
      simp only [listLength]; omega
  · intro i hi
    obtain ⟨h1, h2⟩ := hadded i hi
    have hlen : (s.cat type).bio_pending + 1 = listLength (s.cat type).bio_jobs := by
      simp only [listLength]; omega
    refine ⟨hlen, ?_⟩
    apply increment_wraps
    rw [two_pow_ullong]
    simp only [listLength] at hlen
    omega
  · intro hth
    obtain ⟨h1, h2⟩ := hdel hth
    have hp : (s.cat type).bio_pending = listLength (s.cat type).bio_jobs + 1 := by
      simp only [listLength]; omega
    exact ⟨hp, by omega, decrement_wraps _ (by omega) h.pend⟩

theorem bio_fifo_order_witness :
    run bioInit exampleTrace = some exampleState ∧
    (exampleState.cat 0).submitted =
      [{ id := 0, value := { time := 100, arg1 := 5, arg2 := 0, arg3 := 0 } },
       { id := 1, value := { time := 101, arg1 := 7, arg2 := 0, arg3 := 0 } }] ∧
    (exampleState.cat 0).executed =
      [{ id := 0, value := { time := 100, arg1 := 5, arg2 := 0, arg3 := 0 } }] ∧
    (exampleState.cat 0).performed = [.close 5] ∧
    ((exampleState.cat 0).executed <+: (exampleState.cat 0).submitted ∧
     ((exampleState.cat 0).submitted.map (fun n => n.id)).Nodup ∧
     (exampleState.cat 0).executed.Nodup ∧
     (exampleState.cat 0).performed = (exampleState.cat 0).executed.map (operationOf 0) ∧
     (∀ k, k < (exampleState.cat 0).executed.length →
       (exampleState.cat 0).executed[k]? = (exampleState.cat 0).submitted[k]?)) :=
  ⟨rfl, rfl, rfl, rfl, bio_fifo_order exampleTrace exampleState 0 rfl⟩

theorem bioPendingJobsOfType_free (s : Bio) (i type : Nat)
    (hty : type < REDIS_BIO_NUM_OPS) (hcan : (s.clients i).canCall = true)
    (hm : (s.cat type).bio_mutex = none) :
    ∃ s1, bioPendingJobsOfType s i type = some ((s.cat type).bio_pending, s1) ∧
      s1.cat type = s.cat type := by
  simp only [bioPendingJobsOfType, run, step, clientStep, hty, hcan, hm, and_self, if_true,
    setAt_same]
  refine ⟨_, rfl, ?_⟩
  simp only [setAt_same]
  generalize s.cat type = c at hm
  cases c
  simp only at hm
  subst hm
  rfl

theorem bioCreateBackgroundJob_free (s : Bio) (i type : Nat) (arg1 arg2 arg3 now : Int)
    (hty : type < REDIS_BIO_NUM_OPS) (hcan : (s.clients i).canCall = true)
    (hm : (s.cat type).bio_mutex = none)
    (hroom : listLength (s.cat type).bio_jobs < NODE_LIMIT) :
    ∃ s1, bioCreateBackgroundJob s i type arg1 arg2 arg3 now = some s1 ∧
      (s1.cat type).bio_jobs = (s.cat type).bio_jobs ++
        [{ id := (s.cat type).allocated,
           value := { time := now, arg1 := arg1, arg2 := arg2, arg3 := arg3 } }] ∧
      (s1.cat type).bio_pending = ((s.cat type).bio_pending + 1) % 2 ^ ULLONG_BITS ∧
      (s1.cat type).bio_mutex = none := by
  simp [bioCreateBackgroundJob, run, step, clientStep, hty, hcan, hm, hroom, listAddNodeTail]

theorem drained_of_zero (s : Bio) (type : Nat) (h : Inv s type)
    (hlen : (s.cat type).bio_jobs.length = 0) :
    (s.cat type).committed = (s.cat type).submitted ∧
    (s.cat type).executed = (s.cat type).submitted := by
  have hq : (s.cat type).bio_jobs = [] := List.length_eq_zero.mp hlen
  have hsub : (s.cat type).submitted = (s.cat type).committed := by
    rw [h.subm, hq]; simp
  have hin : (s.cat type).bio_thread.inflight = [] := by
    cases hpc : (s.cat type).bio_thread with
    | processed ln jb =>
      have := h.head ln (by simp [hpc, WorkerPc.node])
      simp [hq] at this
    | freed ln =>
      have := h.head ln (by simp [hpc, WorkerPc.node])
      simp [hq] at this
    | commitLocked ln =>
      have := h.head ln (by simp [hpc, WorkerPc.node])
      simp [hq] at this
    | _ => simp [WorkerPc.inflight]
  refine ⟨hsub.symm, ?_⟩
  rw [h.exec, hin, hsub]; simp

theorem pending_read_facts (acts : List Action) (s : Bio) (type : Nat)
    (hs : run bioInit acts = some s) :
    (∀ i val, s.clients i = .pjRead type val →
      val + (s.cat type).committed.length = (s.cat type).submitted.length ∧
      ((s.cat type).committed = [] → val = (s.cat type).submitted.length) ∧
      ((s.cat type).committed.length = (s.cat type).submitted.length → val = 0) ∧
      (val = 0 → (s.cat type).executed = (s.cat type).submitted) ∧
      ∃ s1, step s (.client i) = some s1 ∧ s1.clients i = .pjReturned type val) ∧
    (∀ i, type < REDIS_BIO_NUM_OPS → (s.clients i).canCall = true →
      (s.cat type).bio_mutex = none →
      ∃ val s1, bioPendingJobsOfType s i type = some (val, s1) ∧
        val + (s.cat type).committed.length = (s.cat type).submitted.length ∧
        ((s.cat type).committed = [] → val = (s.cat type).submitted.length) ∧
        ((s.cat type).committed.length = (s.cat type).submitted.length → val = 0) ∧
        (val = 0 → (s.cat type).executed = (s.cat type).submitted)) := by
  have h := reachable_inv acts s type hs
  have h2 := reachable_inv2 acts s type hs
  have hsub : (s.cat type).submitted.length =
      (s.cat type).committed.length + (s.cat type).bio_jobs.length := by
    rw [h.subm]; simp
  have hcount := h.count
  constructor
  · intro i val hi
    obtain ⟨hm, hw, _⟩ := h.of_client (i := i) (by simp [hi, ClientPc.holds])
    have hlag : lagOf s type = 0 := by simp [lagOf, hm, hi]
    have howes : (s.cat type).bio_thread.owes = 0 := by
      cases hth : (s.cat type).bio_thread <;> simp [WorkerPc.owes]
      simp [hth, WorkerPc.holds] at hw
    have hval := h2.read i val hi
    have hlen : val = (s.cat type).bio_jobs.length := by omega
    refine ⟨by omega, ?_, by omega, ?_, ?_⟩
    · intro hc; rw [hc] at hsub; simp at hsub; omega
    · intro h0
      exact (drained_of_zero s type h (by omega)).2
    · simp [step, clientStep, hi]
  · intro i hty hcan hm
    obtain ⟨hw, _, hlag⟩ := h.of_free hm
    have howes : (s.cat type).bio_thread.owes = 0 := by
      cases hth : (s.cat type).bio_thread <;> simp [WorkerPc.owes]
      simp [hth, WorkerPc.holds] at hw
    obtain ⟨s1, hcall, _⟩ := bioPendingJobsOfType_free s i type hty hcan hm
    refine ⟨_, s1, hcall, by omega, ?_, by omega, ?_⟩
    · intro hc; rw [hc] at hsub; simp at hsub; omega
    · intro h0
      exact (drained_of_zero s type h (by omega)).2

theorem run_append (a b : List Action) : ∀ s : Bio,
    run s (a ++ b) = (run s a).bind (fun s1 => run s1 b) := by
  induction a with
  | nil => intro s; rfl
  | cons x rest ih =>
    intro s
    simp only [List.cons_append, run]
    cases step s x with
    | none => rfl
    | some s1 => exact ih s1

theorem moveStep_run (s s1 : Bio) (m : Move) (h : moveStep s m = some s1) :
    run s m.actions = some s1 := by
  cases m with
  | worker type =>
    simp only [moveStep] at h
    simp [Move.actions, run, h]
  | spurious type =>
    simp only [moveStep] at h
    simp [Move.actions, run, h]
  | submit i type arg1 arg2 arg3 now => exact h
  | pendingCount i type =>
    simp only [moveStep, bioPendingJobsOfType, Option.map_eq_some'] at h
    obtain ⟨⟨v, s2⟩, h1, h2⟩ := h
    simp only at h2
    subst h2
    simp only [Move.actions]
    cases hr : run s [.pending i type, .client i, .client i, .client i] with
    | none => simp [hr] at h1
    | some s3 =>
      simp only [hr] at h1
      split at h1
      · simp only [Option.some.injEq, Prod.mk.injEq] at h1
        rw [h1.2]
      · simp at h1

theorem runMoves_run (moves : List Move) : ∀ (s s1 : Bio), runMoves s moves = some s1 →
    run s (moves.flatMap Move.actions) = some s1 := by
  induction moves with
  | nil => intro s s1 h; simpa [runMoves, run] using h
  | cons m rest ih =>
    intro s s1 h
    simp only [runMoves] at h
    cases hm : moveStep s m with
    | none => simp [hm] at h
    | some s2 =>
      simp only [hm] at h
      simp only [List.flatMap_cons, run_append, moveStep_run s s2 m hm, Option.some_bind]
      exact ih s2 s1 h

theorem bioCreateBackgroundJob_clients (s s1 : Bio) (i type : Nat) (arg1 arg2 arg3 now : Int)
    (h : bioCreateBackgroundJob s i type arg1 arg2 arg3 now = some s1) :
    ∀ j, s1.clients j = if j = i then .idle else s.clients j := by
  by_cases hg : type < REDIS_BIO_NUM_OPS ∧ (s.clients i).canCall = true
  · by_cases hm : (s.cat type).bio_mutex = none
    · by_cases hroom : listLength (s.cat type).bio_jobs < NODE_LIMIT
      · simp [bioCreateBackgroundJob, run, step, clientStep, hg, hm, hroom] at h
        subst h
        intro j
        by_cases hj : j = i <;> simp [setAt, hj]
      · simp [bioCreateBackgroundJob, run, step, clientStep, hg, hm, hroom] at h
    · simp [bioCreateBackgroundJob, run, step, clientStep, hg, hm] at h
  · simp [bioCreateBackgroundJob, run, step, clientStep, hg] at h

theorem bioPendingJobsOfType_clients (s s1 : Bio) (i type val : Nat)
    (h : bioPendingJobsOfType s i type = some (val, s1)) :
    ∀ j, s1.clients j = if j = i then .pjReturned type val else s.clients j := by
  by_cases hg : type < REDIS_BIO_NUM_OPS ∧ (s.clients i).canCall = true
  · by_cases hm : (s.cat type).bio_mutex = none
    · simp [bioPendingJobsOfType, run, step, clientStep, hg, hm] at h
      obtain ⟨h1, h2⟩ := h
      subst h1 h2
      intro j
      by_cases hj : j = i <;> simp [setAt, hj]
    · simp [bioPendingJobsOfType, run, step, clientStep, hg, hm] at h
  · simp [bioPendingJobsOfType, run, step, clientStep, hg] at h

theorem moveStep_quiescent (s s1 : Bio) (m : Move) (hq : quiescent s)
    (h : moveStep s m = some s1) : quiescent s1 := by
  cases m with
  | worker type =>
    simp only [moveStep, step] at h
    split at h
    · cases hw : workerStep type (s.cat type) with
      | none => simp [hw] at h
      | some c1 =>
        simp only [hw, Option.some.injEq] at h
        subst h; exact hq
    · simp at h
  | spurious type =>
    simp only [moveStep, step] at h
    split at h
    · injection h with h; subst h; exact hq
    · simp at h
  | submit i type arg1 arg2 arg3 now =>
    intro j
    rw [bioCreateBackgroundJob_clients s s1 i type arg1 arg2 arg3 now h j]
    split
    · rfl
    · exact hq j
  | pendingCount i type =>
    simp only [moveStep, Option.map_eq_some'] at h
    obtain ⟨⟨v, s2⟩, h1, h2⟩ := h
    simp only at h2
    subst h2
    intro j
    rw [bioPendingJobsOfType_clients s s2 i type v h1 j]
    split
    · rfl
    · exact hq j

theorem runMoves_quiescent (moves : List Move) : ∀ (s s1 : Bio), quiescent s →
    runMoves s moves = some s1 → quiescent s1 := by
  induction moves with
  | nil =>
    intro s s1 hq h
    simp only [runMoves, Option.some.injEq] at h
    subst h; exact hq
  | cons m rest ih =>
    intro s s1 hq h
    simp only [runMoves] at h
    cases hm : moveStep s m with
    | none => simp [hm] at h
    | some s2 =>
      simp only [hm] at h
      exact ih s2 s1 (moveStep_quiescent s s2 m hq hm) h

theorem quiescent_bioInit : quiescent bioInit := fun _ => rfl

theorem workerStep_submitted (ty : Nat) (c c1 : Category) (h : workerStep ty c = some c1) :
    c1.submitted = c.submitted := by
  unfold workerStep at h
  cases hpc : c.bio_thread <;> simp only [hpc] at h
  case start => split at h <;> simp at h; subst h; rfl
  case loopHead =>
    split at h
    · simp at h; subst h; rfl
    · split at h <;> simp at h
      subst h; rfl
  case condWait => simp at h
  case condWoken => split at h <;> simp at h; subst h; rfl
  case peeked => simp at h; subst h; rfl
  case execute =>
    split at h
    · simp at h; subst h; rfl
    · split at h <;> simp at h
      subst h; rfl
  case processed => simp at h; subst h; rfl
  case freed => split at h <;> simp at h; subst h; rfl
  case commitLocked => simp at h; subst h; rfl
  case deleted => simp at h; subst h; rfl

theorem moveStep_submitted (s s1 : Bio) (m : Move) (type : Nat)
    (h : moveStep s m = some s1) :
    (s1.cat type).submitted.length =
      (s.cat type).submitted.length + countSubmits type [m] := by
  cases m with
  | worker ty =>
    simp only [moveStep, step] at h
    split at h
    · cases hw : workerStep ty (s.cat ty) with
      | none => simp [hw] at h
      | some c1 =>
        simp only [hw, Option.some.injEq] at h
        subst h
        have := workerStep_submitted ty _ _ hw
        by_cases hty : type = ty
        · subst hty; simp [countSubmits, this]
        · simp [countSubmits, setAt, hty]
    · simp at h
  | spurious ty =>
    simp only [moveStep, step] at h
    split at h
    · injection h with h; subst h
      by_cases hty : type = ty
      · subst hty; simp [countSubmits]
      · simp [countSubmits, setAt, hty]
    · simp at h
  | submit i ty arg1 arg2 arg3 now =>
    simp only [moveStep] at h
    by_cases hg : ty < REDIS_BIO_NUM_OPS ∧ (s.clients i).canCall = true
    · by_cases hm : (s.cat ty).bio_mutex = none
      · by_cases hroom : listLength (s.cat ty).bio_jobs < NODE_LIMIT
        · simp [bioCreateBackgroundJob, run, step, clientStep, hg, hm, hroom] at h
          subst h
          by_cases hty : type = ty
          · subst hty; simp [countSubmits]
          · have hty2 : ¬ ty = type := fun e => hty e.symm
            simp [countSubmits, setAt, hty, hty2]
        · simp [bioCreateBackgroundJob, run, step, clientStep, hg, hm, hroom] at h
      · simp [bioCreateBackgroundJob, run, step, clientStep, hg, hm] at h
    · simp [bioCreateBackgroundJob, run, step, clientStep, hg] at h
  | pendingCount i ty =>
    simp only [moveStep, Option.map_eq_some'] at h
    obtain ⟨⟨v, s2⟩, h1, h2⟩ := h
    simp only at h2
    subst h2
    by_cases hg : ty < REDIS_BIO_NUM_OPS ∧ (s.clients i).canCall = true
    · by_cases hm : (s.cat ty).bio_mutex = none
      · simp [bioPendingJobsOfType, run, step, clientStep, hg, hm] at h1
        obtain ⟨_, h2⟩ := h1
        subst h2
        by_cases hty : type = ty
        · subst hty; simp [countSubmits]
        · simp [countSubmits, setAt, hty]
      · simp [bioPendingJobsOfType, run, step, clientStep, hg, hm] at h1
    · simp [bioPendingJobsOfType, run, step, clientStep, hg] at h1

theorem countSubmits_cons (type : Nat) (m : Move) (rest : List Move) :
    countSubmits type (m :: rest) = countSubmits type [m] + countSubmits type rest := by
  cases m <;> simp [countSubmits]

theorem runMoves_submitted (moves : List Move) (type : Nat) : ∀ (s s1 : Bio),
    runMoves s moves = some s1 →
    (s1.cat type).submitted.length =
      (s.cat type).submitted.length + countSubmits type moves := by
  induction moves with
  | nil =>
    intro s s1 h
    simp only [runMoves, Option.some.injEq] at h
    subst h; simp [countSubmits]
  | cons m rest ih =>
    intro s s1 h
    simp only [runMoves] at h
    cases hm : moveStep s m with
    | none => simp [hm] at h
    | some s2 =>
      simp only [hm] at h
      rw [ih s2 s1 h, moveStep_submitted s s2 m type hm, countSubmits_cons type m rest]
      omega

theorem executing_facts (acts : List Action) (s : Bio) (type : Nat)
    (hs : run bioInit acts = some s) :
    (∀ ln, (s.cat type).bio_thread.executing = some ln →
      (s.cat type).bio_mutex ≠ some .worker ∧
      ((s.cat type).bio_mutex = none ∨
        ∃ i, (s.cat type).bio_mutex = some (.client i) ∧ (s.clients i).holds type = true) ∧
      ((∀ i, (s.clients i).holds type = false) → (s.cat type).bio_mutex = none) ∧
      ((s.cat type).bio_mutex = none →
        (∀ i jb, s.clients i = .cjReady type jb → (step s (.client i)).isSome = true) ∧
        (∀ i, s.clients i = .pjEntry type → (step s (.client i)).isSome = true) ∧
        (∀ i arg1 arg2 arg3 now, type < REDIS_BIO_NUM_OPS → (s.clients i).canCall = true →
          listLength (s.cat type).bio_jobs < NODE_LIMIT →
          (bioCreateBackgroundJob s i type arg1 arg2 arg3 now).isSome = true) ∧
        (∀ i, type < REDIS_BIO_NUM_OPS → (s.clients i).canCall = true →
          (bioPendingJobsOfType s i type).isSome = true)) ∧
      listFirst (s.cat type).bio_jobs = some ln ∧
      (∀ job, (s.cat type).bio_thread = .execute ln job → job = ln.value) ∧
      (s.cat type).executed.length ≤ (s.cat type).committed.length + 1) ∧
    (∀ ln, (s.cat type).bio_thread = .commitLocked ln →
      ∃ rest, (s.cat type).bio_jobs = ln :: rest ∧
        (s.cat type).executed = (s.cat type).committed ++ [ln] ∧
        listDelNode (s.cat type).bio_jobs ln = rest ∧
        (type < REDIS_BIO_NUM_OPS →
          ∃ s1, step s (.worker type) = some s1 ∧ (s1.cat type).bio_jobs = rest ∧
            (s1.cat type).committed = (s.cat type).executed)) := by
  have h := reachable_inv acts s type hs
  constructor
  · intro ln hex
    have hnode : (s.cat type).bio_thread.node = some ln ∧
        (s.cat type).bio_thread.holds = false ∧
        (s.cat type).bio_thread.inflight.length ≤ 1 := by
      cases hpc : (s.cat type).bio_thread <;>
        simp [hpc, WorkerPc.executing, WorkerPc.node, WorkerPc.holds, WorkerPc.inflight]
          at hex ⊢ <;> exact hex
    have hnw : (s.cat type).bio_mutex ≠ some .worker := by
      intro hm
      have := h.lockW.mp hm
      rw [hnode.2.1] at this
      simp at this
    refine ⟨hnw, ?_, ?_, ?_, ?_, ?_, ?_⟩
    · cases hm : (s.cat type).bio_mutex with
      | none => exact Or.inl rfl
      | some t =>
        cases t with
        | worker => exact absurd hm hnw
        | client i => exact Or.inr ⟨i, rfl, (h.lockC i).mp hm⟩
    · intro hno
      cases hm : (s.cat type).bio_mutex with
      | none => rfl
      | some t =>
        cases t with
        | worker => exact absurd hm hnw
        | client i =>
          have := (h.lockC i).mp hm
          rw [hno i] at this
          simp at this
    · intro hm
      refine ⟨?_, ?_, ?_, ?_⟩
      · intro i jb hi
        simp [step, clientStep, hi, hm]
      · intro i hi
        simp [step, clientStep, hi, hm]
      · intro i arg1 arg2 arg3 now hty hcan hroom
        obtain ⟨s1, h1, _⟩ :=
          bioCreateBackgroundJob_free s i type arg1 arg2 arg3 now hty hcan hm hroom
        simp [h1]
      · intro i hty hcan
        obtain ⟨s1, h1, _⟩ := bioPendingJobsOfType_free s i type hty hcan hm
        simp [h1]
    · exact h.head ln hnode.1
    · intro job hpc
      obtain ⟨ln1, h1, h2⟩ := h.job job (by simp [hpc, WorkerPc.job])
      simp only [hpc, WorkerPc.node, Option.some.injEq] at h1
      rw [h1]; exact h2
    · rw [h.exec]
      simp only [List.length_append]
      omega
  · intro ln hpc
    have hhead := h.head ln (by simp [hpc, WorkerPc.node])
    obtain ⟨rest, hjobs⟩ : ∃ rest, (s.cat type).bio_jobs = ln :: rest := by
      cases hq : (s.cat type).bio_jobs with
      | nil => simp [hq] at hhead
      | cons a t =>
        simp only [hq, List.head?_cons, Option.some.injEq] at hhead
        exact ⟨t, by rw [hhead]⟩
    have hexec : (s.cat type).executed = (s.cat type).committed ++ [ln] := by
      rw [h.exec, hpc]; rfl
    refine ⟨rest, hjobs, hexec, ?_, ?_⟩
    · rw [hjobs]; exact listDelNode_cons_self ln rest
    · intro hty
      simp [step, workerStep, hty, hpc, hjobs, listDelNode_cons_self, hexec]

/-- C9: the worker never holds the mutex of its category while it executes
a job (from the unlock of line 199 to the lock of line 220). With whole
calls of the clients taken as steps, in every reachable state in which the
worker is executing a job the mutex is free and a submission and a pending
count for the category are enabled; with single statements taken as steps,
the mutex is then free or held by a client inside a critical section of its
own, never by the worker, and a client waiting at the lock can take a free
mutex. In both views the node being executed is still the head of the queue
and carries the job being executed; and when the worker, back under the
mutex, unlinks its node, that node is the head of the queue and the last
one executed, whatever was appended in between, and the unlink leaves
exactly the nodes behind it. -/
theorem worker_executes_unlocked (type : Nat) :
    (∀ (moves : List Move) (s : Bio), runMoves bioInit moves = some s →
      ∀ ln, (s.cat type).bio_thread.executing = some ln →
        (s.cat type).bio_mutex = none ∧
        (∀ i arg1 arg2 arg3 now, type < REDIS_BIO_NUM_OPS →
          listLength (s.cat type).bio_jobs < NODE_LIMIT →
          (moveStep s (.submit i type arg1 arg2 arg3 now)).isSome = true) ∧
        (∀ i, type < REDIS_BIO_NUM_OPS →
          (moveStep s (.pendingCount i type)).isSome = true) ∧
        listFirst (s.cat type).bio_jobs = some ln ∧
        (∀ job, (s.cat type).bio_thread = .execute ln job → job = ln.value)) ∧
    (∀ (acts : List Action) (s : Bio), run bioInit acts = some s →
      (∀ ln, (s.cat type).bio_thread.executing = some ln →
        (s.cat type).bio_mutex ≠ some .worker ∧
        ((s.cat type).bio_mutex = none ∨
          ∃ i, (s.cat type).bio_mutex = some (.client i) ∧ (s.clients i).holds type = true) ∧
        ((∀ i, (s.clients i).holds type = false) → (s.cat type).bio_mutex = none) ∧
        ((s.cat type).bio_mutex = none →
          (∀ i jb, s.clients i = .cjReady type jb → (step s (.client i)).isSome = true) ∧
          (∀ i, s.clients i = .pjEntry type → (step s (.client i)).isSome = true) ∧
          (∀ i arg1 arg2 arg3 now, type < REDIS_BIO_NUM_OPS → (s.clients i).canCall = true →
            listLength (s.cat type).bio_jobs < NODE_LIMIT →
            (bioCreateBackgroundJob s i type arg1 arg2 arg3 now).isSome = true) ∧
          (∀ i, type < REDIS_BIO_NUM_OPS → (s.clients i).canCall = true →
            (bioPendingJobsOfType s i type).isSome = true)) ∧
        listFirst (s.cat type).bio_jobs = some ln ∧
        (∀ job, (s.cat type).bio_thread = .execute ln job → job = ln.value) ∧
        (s.cat type).executed.length ≤ (s.cat type).committed.length + 1) ∧
      (∀ ln, (s.cat type).bio_thread = .commitLocked ln →
        ∃ rest, (s.cat type).bio_jobs = ln :: rest ∧
          (s.cat type).executed = (s.cat type).committed ++ [ln] ∧
          listDelNode (s.cat type).bio_jobs ln = rest ∧
          (type < REDIS_BIO_NUM_OPS →
            ∃ s1, step s (.worker type) = some s1 ∧ (s1.cat type).bio_jobs = rest ∧
              (s1.cat type).committed = (s.cat type).executed))) := by
  constructor
  · intro moves s hm ln hex
    have hs := runMoves_run moves bioInit s hm
    have hq := runMoves_quiescent moves bioInit s quiescent_bioInit hm
    obtain ⟨_, _, hfree, hen, hhead, hjob, _⟩ :=
      (executing_facts _ s type hs).1 ln hex
    have hnone : (s.cat type).bio_mutex = none := by
      apply hfree
      intro i
      have := hq i
      cases hc : s.clients i <;> simp [hc, ClientPc.canCall, ClientPc.holds] at this ⊢
    obtain ⟨_, _, hsub, hpend⟩ := hen hnone
    refine ⟨hnone, ?_, ?_, hhead, hjob⟩
    · intro i arg1 arg2 arg3 now hty hroom
      exact hsub i arg1 arg2 arg3 now hty (hq i) hroom
    · intro i hty
      have := hpend i hty (hq i)
      simp only [moveStep, Option.isSome_map']
      exact this
  · intro acts s hs
    exact executing_facts acts s type hs

/-- C3: starting from bioInit, after any moves among which `N` are whole
calls bioCreateBackgroundJob(type, ...), exactly `N` nodes have been
submitted to the category, and a call bioPendingJobsOfType(type) made while
the mutex is free returns `N` minus the number of nodes the worker has
committed: `N` as long as none is committed (also while the first job is
being executed), 0 once all `N` are committed, and a result of 0 means that
every node submitted so far has been executed. With single statements as
steps the same holds for the value a reader has read under the mutex, which
is the value its call returns. -/
theorem bioPendingJobsOfType_counts (type : Nat) :
    (∀ (moves : List Move) (s : Bio), runMoves bioInit moves = some s →
      (s.cat type).submitted.length = countSubmits type moves ∧
      ∀ i, type < REDIS_BIO_NUM_OPS → (s.cat type).bio_mutex = none →
        ∃ val s1, bioPendingJobsOfType s i type = some (val, s1) ∧
          val + (s.cat type).committed.length = countSubmits type moves ∧
          ((s.cat type).committed = [] → val = countSubmits type moves) ∧
          ((s.cat type).committed.length = countSubmits type moves → val = 0) ∧
          (val = 0 → (s.cat type).executed = (s.cat type).submitted)) ∧
    (∀ (acts : List Action) (s : Bio), run bioInit acts = some s →
      (∀ i val, s.clients i = .pjRead type val →
        val + (s.cat type).committed.length = (s.cat type).submitted.length ∧
        ((s.cat type).committed = [] → val = (s.cat type).submitted.length) ∧
        ((s.cat type).committed.length = (s.cat type).submitted.length → val = 0) ∧
        (val = 0 → (s.cat type).executed = (s.cat type).submitted) ∧
        ∃ s1, step s (.client i) = some s1 ∧ s1.clients i = .pjReturned type val) ∧
      (∀ i, type < REDIS_BIO_NUM_OPS → (s.clients i).canCall = true →
        (s.cat type).bio_mutex = none →
        ∃ val s1, bioPendingJobsOfType s i type = some (val, s1) ∧
          val + (s.cat type).committed.length = (s.cat type).submitted.length ∧
          ((s.cat type).committed = [] → val = (s.cat type).submitted.length) ∧
          ((s.cat type).committed.length = (s.cat type).submitted.length → val = 0) ∧
          (val = 0 → (s.cat type).executed = (s.cat type).submitted))) := by
  constructor
  · intro moves s hm
    have hs := runMoves_run moves bioInit s hm
    have hq := runMoves_quiescent moves bioInit s quiescent_bioInit hm
    have hn : (s.cat type).submitted.length = countSubmits type moves := by
      have := runMoves_submitted moves type bioInit s hm
      simpa [bioInit] using this
    refine ⟨hn, ?_⟩
    intro i hty hfree
    obtain ⟨val, s1, hcall, h1, h2, h3, h4⟩ :=
      (pending_read_facts _ s type hs).2 i hty (hq i) hfree
    rw [hn] at h1 h2 h3
    exact ⟨val, s1, hcall, h1, h2, h3, h4⟩
  · intro acts s hs
    exact pending_read_facts acts s type hs

theorem bio_pending_matches_queue_witness :
    run bioInit exampleWindowTrace = some exampleWindowState ∧
    exampleWindowState.clients 0 = .cjAdded 0 ∧
    (exampleWindowState.cat 0).bio_pending = 1 ∧
    listLength (exampleWindowState.cat 0).bio_jobs = 2 ∧
    (((exampleWindowState.cat 0).bio_mutex = none →
      (exampleWindowState.cat 0).bio_pending = listLength (exampleWindowState.cat 0).bio_jobs) ∧
    ((exampleWindowState.cat 0).bio_pending = listLength (exampleWindowState.cat 0).bio_jobs ↔
      ((exampleWindowState.cat 0).bio_thread ≠ .deleted ∧
        ∀ i, exampleWindowState.clients i ≠ .cjAdded 0)) ∧
    (∀ i, exampleWindowState.clients i = .cjAdded 0 →
      (exampleWindowState.cat 0).bio_pending + 1 =
        listLength (exampleWindowState.cat 0).bio_jobs ∧
      ((exampleWindowState.cat 0).bio_pending + 1) % 2 ^ ULLONG_BITS =
        (exampleWindowState.cat 0).bio_pending + 1) ∧
    ((exampleWindowState.cat 0).bio_thread = .deleted →
      (exampleWindowState.cat 0).bio_pending =
        listLength (exampleWindowState.cat 0).bio_jobs + 1 ∧
      1 ≤ (exampleWindowState.cat 0).bio_pending ∧
      ((exampleWindowState.cat 0).bio_pending + 2 ^ ULLONG_BITS - 1) % 2 ^ ULLONG_BITS =
        (exampleWindowState.cat 0).bio_pending - 1) ∧
    (exampleWindowState.cat 0).bio_pending < 2 ^ ULLONG_BITS) :=
  ⟨rfl, rfl, rfl, rfl, bio_pending_matches_queue exampleWindowTrace exampleWindowState 0 rfl⟩

theorem worker_executes_unlocked_witness :
    (runMoves bioInit exampleMoves = some exampleMovesState ∧
     (exampleMovesState.cat 0).bio_thread = .execute exampleNode0 exampleNode0.value ∧
     (exampleMovesState.cat 0).bio_jobs = [exampleNode0, exampleNode1] ∧
     (exampleMovesState.cat 0).bio_mutex = none ∧
     (moveStep exampleMovesState (.submit 1 0 9 0 0 102)).isSome = true ∧
     (moveStep exampleMovesState (.pendingCount 1 0)).isSome = true ∧
     listFirst (exampleMovesState.cat 0).bio_jobs = some exampleNode0) ∧
    (run bioInit exampleWindowTrace = some exampleWindowState ∧
     (exampleWindowState.cat 0).bio_thread = .execute exampleNode0 exampleNode0.value ∧
     (exampleWindowState.cat 0).bio_mutex = some (.client 0) ∧
     (exampleWindowState.cat 0).bio_mutex ≠ some .worker ∧
     listFirst (exampleWindowState.cat 0).bio_jobs = some exampleNode0) ∧
    (run bioInit exampleCommitTrace = some exampleCommitState ∧
     (exampleCommitState.cat 0).bio_thread = .commitLocked exampleNode0 ∧
     ∃ rest, (exampleCommitState.cat 0).bio_jobs = exampleNode0 :: rest ∧
       (exampleCommitState.cat 0).executed =
         (exampleCommitState.cat 0).committed ++ [exampleNode0] ∧
       listDelNode (exampleCommitState.cat 0).bio_jobs exampleNode0 = rest ∧
       (0 < REDIS_BIO_NUM_OPS →
         ∃ s1, step exampleCommitState (.worker 0) = some s1 ∧
           (s1.cat 0).bio_jobs = rest ∧
           (s1.cat 0).committed = (exampleCommitState.cat 0).executed)) :=
  have hA := (worker_executes_unlocked 0).1 exampleMoves exampleMovesState rfl exampleNode0 rfl
  have hB := ((worker_executes_unlocked 0).2 exampleWindowTrace exampleWindowState rfl).1
    exampleNode0 rfl
  have hC := ((worker_executes_unlocked 0).2 exampleCommitTrace exampleCommitState rfl).2
    exampleNode0 rfl
  ⟨⟨rfl, rfl, rfl, hA.1, hA.2.1 1 9 0 0 102 (by decide) (by decide),
      hA.2.2.1 1 (by decide), hA.2.2.2.1⟩,
   ⟨rfl, rfl, rfl, hB.1, hB.2.2.2.2.1⟩,
   ⟨rfl, rfl, hC⟩⟩

theorem bioPendingJobsOfType_counts_witness :
    (runMoves bioInit exampleMoves = some exampleMovesState ∧
     countSubmits 0 exampleMoves = 2 ∧
     (exampleMovesState.cat 0).committed = [] ∧
     (bioPendingJobsOfType exampleMovesState 1 0).map Prod.fst = some 2 ∧
     (exampleMovesState.cat 0).submitted.length = countSubmits 0 exampleMoves ∧
     ∃ val s1, bioPendingJobsOfType exampleMovesState 1 0 = some (val, s1) ∧
       val + (exampleMovesState.cat 0).committed.length = countSubmits 0 exampleMoves ∧
       ((exampleMovesState.cat 0).committed = [] → val = countSubmits 0 exampleMoves) ∧
       ((exampleMovesState.cat 0).committed.length = countSubmits 0 exampleMoves →
         val = 0) ∧
       (val = 0 →
         (exampleMovesState.cat 0).executed = (exampleMovesState.cat 0).submitted)) ∧
    (run bioInit exampleTrace = some exampleState ∧
     (exampleState.cat 0).submitted.length = 2 ∧ (exampleState.cat 0).committed = [] ∧
     (exampleState.cat 0).executed = [exampleNode0] ∧
     (bioPendingJobsOfType exampleState 1 0).map Prod.fst = some 2 ∧
     ∃ val s1, bioPendingJobsOfType exampleState 1 0 = some (val, s1) ∧
       val + (exampleState.cat 0).committed.length = (exampleState.cat 0).submitted.length ∧
       ((exampleState.cat 0).committed = [] → val = (exampleState.cat 0).submitted.length) ∧
       ((exampleState.cat 0).committed.length = (exampleState.cat 0).submitted.length →
         val = 0) ∧
       (val = 0 → (exampleState.cat 0).executed = (exampleState.cat 0).submitted)) ∧
    (run bioInit exampleDrainedTrace = some exampleDrainedState ∧
     (exampleDrainedState.cat 0).submitted.length = 2 ∧
     (exampleDrainedState.cat 0).committed.length = 2 ∧
     (bioPendingJobsOfType exampleDrainedState 1 0).map Prod.fst = some 0 ∧
     ∃ val s1, bioPendingJobsOfType exampleDrainedState 1 0 = some (val, s1) ∧
       val + (exampleDrainedState.cat 0).committed.length =
         (exampleDrainedState.cat 0).submitted.length ∧
       ((exampleDrainedState.cat 0).committed = [] →
         val = (exampleDrainedState.cat 0).submitted.length) ∧
       ((exampleDrainedState.cat 0).committed.length =
         (exampleDrainedState.cat 0).submitted.length → val = 0) ∧
       (val = 0 →
         (exampleDrainedState.cat 0).executed = (exampleDrainedState.cat 0).submitted)) :=
  have hA := (bioPendingJobsOfType_counts 0).1 exampleMoves exampleMovesState rfl
  ⟨⟨rfl, rfl, rfl, rfl, hA.1, hA.2 1 (by decide) rfl⟩,
   ⟨rfl, rfl, rfl, rfl, rfl,
     ((bioPendingJobsOfType_counts 0).2 exampleTrace exampleState rfl).2 1
       (by decide) rfl rfl⟩,
   ⟨rfl, rfl, rfl, rfl,
     ((bioPendingJobsOfType_counts 0).2 exampleDrainedTrace exampleDrainedState rfl).2 1
       (by decide) rfl rfl⟩⟩

theorem aeApiAddEvent_first_failure_witness :
    aeApiAddEvent writeAddFails kqueue3 5 3 =
      (-1, { interest := kqueue3.interest ++ [readWatch 5],
             requests := [(.EV_ADD, readWatch 5), (.EV_ADD, writeWatch 5)] }) ∧
    aeApiAddEvent readAddFails kqueue3 5 3 =
      (-1, { interest := kqueue3.interest, requests := [(.EV_ADD, readWatch 5)] }) ∧
    aeApiAddEvent noAddFails kqueue3 5 3 =
      (0, { interest := kqueue3.interest ++ [readWatch 5, writeWatch 5],
            requests := [(.EV_ADD, readWatch 5), (.EV_ADD, writeWatch 5)] }) ∧
    aeApiAddEvent readAddFails kqueue3 5 0 = (0, kqueue3) ∧
    ((aeApiAddEvent writeAddFails kqueue3 5 3).1 = -1 ↔
      readableFails writeAddFails kqueue3 5 3 ∨ writableFails writeAddFails kqueue3 5 3) :=
  ⟨by decide, by decide, by decide, by decide,
   (aeApiAddEvent_first_failure writeAddFails kqueue3 5 3).1⟩

theorem aeApiDelEvent_idempotent_witness :
    (aeApiDelEvent noAddFails kqueue3 7 1).interest =
      [{ ident := 7, filter := EVFILT_WRITE }, { ident := 9, filter := EVFILT_READ }] ∧
    (aeApiDelEvent noAddFails kqueue3 7 3).interest = [{ ident := 9, filter := EVFILT_READ }] ∧
    (aeApiDelEvent noAddFails kqueue3 5 3).interest = kqueue3.interest ∧
    (aeApiDelEvent noAddFails kqueue3 9 2).interest = kqueue3.interest ∧
    (aeApiDelEvent noAddFails (aeApiDelEvent noAddFails kqueue3 7 3) 7 3).interest =
      (aeApiDelEvent noAddFails kqueue3 7 3).interest :=
  ⟨by decide, by decide, by decide, by decide,
   (aeApiDelEvent_idempotent noAddFails kqueue3 7 3).2.2.2⟩

end RedisSrc
